import Mathlib

/-!
SlamReplaying: per-map path registry and keyframe-anchored cubes.

A shallow embedding of the three SLAM callbacks of `src/SlamReplaying.cpp`
(`handler`, `loopHandler`, `mergeHandler`) together with the `MyGUI::Path`
methods of `src/include/glfwManager.h` they call.

Conventions of the embedding.

* Scalars (`double`) are an arbitrary type `R` carrying `0`, `1`, `+` and `*`;
  nothing below uses an algebraic law of `R`.
* A `MyGUI::Path*` is an `Option (Path R)`: `none` is `nullptr`, `some p` is the
  heap object it points to.  Every `Path` is owned by exactly one registry
  entry, so the object is stored in the entry; its address is kept in `addr`.
* A `MapKeyFrame::Ptr` is an `Option Nat`: `none` is `nullptr`, `some k` is the
  keyframe object `k` of the backend.  What `K->T_WS()` answers when a handler
  runs is a function `T_WS : Nat → Matrix4d R` handed to that handler.
* Dereferencing `nullptr` and indexing a `std::vector` out of range are
  undefined behaviour; a handler that reaches either stops with a `Fault`.
* Window bookkeeping (`traj_win.add_object`, `ar_win.set_camera`,
  `ar_win.set_image`, `axis2.set_transform`), logging and `T_vectors` write to
  objects no handler reads back and are left out.
-/

namespace SlamReplaying

/-! ## Linear algebra carriers -/

/-- The type `Eigen::Vector3d`. -/
structure Vector3d (R : Type) where
  x : R
  y : R
  z : R
deriving DecidableEq, Repr

/-- The type `Eigen::Matrix4d` (also the matrix of an `Eigen::Affine3d`), entry `mij` is
row `i`, column `j`. -/
structure Matrix4d (R : Type) where
  m00 : R
  m01 : R
  m02 : R
  m03 : R
  m10 : R
  m11 : R
  m12 : R
  m13 : R
  m20 : R
  m21 : R
  m22 : R
  m23 : R
  m30 : R
  m31 : R
  m32 : R
  m33 : R
deriving DecidableEq, Repr

/-- The translation column: `Affine3d::translation()` and
`block<3, 1>(0, 3)` both read rows 0..2 of column 3. -/
def Matrix4d.translation {R : Type} (T : Matrix4d R) : Vector3d R :=
  ⟨T.m03, T.m13, T.m23⟩

/-- The product `A * B` of two 4x4 matrices, as in `K_cubes[i]->T_WS() * T_K_cubes[i]`. -/
def Matrix4d.mul {R : Type} [Add R] [Mul R] (A B : Matrix4d R) : Matrix4d R where
  m00 := A.m00 * B.m00 + A.m01 * B.m10 + A.m02 * B.m20 + A.m03 * B.m30
  m01 := A.m00 * B.m01 + A.m01 * B.m11 + A.m02 * B.m21 + A.m03 * B.m31
  m02 := A.m00 * B.m02 + A.m01 * B.m12 + A.m02 * B.m22 + A.m03 * B.m32
  m03 := A.m00 * B.m03 + A.m01 * B.m13 + A.m02 * B.m23 + A.m03 * B.m33
  m10 := A.m10 * B.m00 + A.m11 * B.m10 + A.m12 * B.m20 + A.m13 * B.m30
  m11 := A.m10 * B.m01 + A.m11 * B.m11 + A.m12 * B.m21 + A.m13 * B.m31
  m12 := A.m10 * B.m02 + A.m11 * B.m12 + A.m12 * B.m22 + A.m13 * B.m32
  m13 := A.m10 * B.m03 + A.m11 * B.m13 + A.m12 * B.m23 + A.m13 * B.m33
  m20 := A.m20 * B.m00 + A.m21 * B.m10 + A.m22 * B.m20 + A.m23 * B.m30
  m21 := A.m20 * B.m01 + A.m21 * B.m11 + A.m22 * B.m21 + A.m23 * B.m31
  m22 := A.m20 * B.m02 + A.m21 * B.m12 + A.m22 * B.m22 + A.m23 * B.m32
  m23 := A.m20 * B.m03 + A.m21 * B.m13 + A.m22 * B.m23 + A.m23 * B.m33
  m30 := A.m30 * B.m00 + A.m31 * B.m10 + A.m32 * B.m20 + A.m33 * B.m30
  m31 := A.m30 * B.m01 + A.m31 * B.m11 + A.m32 * B.m21 + A.m33 * B.m31
  m32 := A.m30 * B.m02 + A.m31 * B.m12 + A.m32 * B.m22 + A.m33 * B.m32
  m33 := A.m30 * B.m03 + A.m31 * B.m13 + A.m32 * B.m23 + A.m33 * B.m33

/-! ## GUI objects (`glfwManager.h`) -/

/-- The class `MyGUI::Path`: `name_` from `Object`, then `nodes` and `color`.  `addr` is
the address `new` returned for the object. -/
structure Path (R : Type) where
  addr : Nat
  name_ : String
  nodes : List (Vector3d R)
  color : Vector3d R
deriving DecidableEq, Repr

/-- Method `Path::add_node`: `nodes.push_back(node)`. -/
def Path.add_node {R : Type} (node : Vector3d R) (p : Path R) : Path R :=
  { p with nodes := p.nodes ++ [node] }

/-- Method `Path::clear`: `nodes.clear()`. -/
def Path.clear {R : Type} (p : Path R) : Path R :=
  { p with nodes := [] }

/-- A `MyGUI::Cube` seen as the `MyGUI::Object` the handlers use: its `name_`
and its `pose`. -/
structure Cube (R : Type) where
  name_ : String
  pose : Matrix4d R
deriving DecidableEq, Repr

/-- Modelled from the spec: `Object::set_transform` is only declared in
`glfwManager.h`; it stores the given transform as the displayed pose of the
object (the pose the render snapshot reads). -/
def Cube.set_transform {R : Type} (t : Matrix4d R) (c : Cube R) : Cube R :=
  { c with pose := t }

/-- Modelled from the spec: what `handler` reads of a `MultiCameraFrame`, a type
declared outside the sources at hand: the camera pose `frame->T_WC(3)`, the
keyframe-relative transform `frame->T_KS_` and the keyframe `frame->keyframe_`. -/
structure MultiCameraFrame (R : Type) where
  T_WC3 : Matrix4d R
  T_KS_ : Matrix4d R
  keyframe_ : Option Nat
deriving DecidableEq, Repr

/-! ## `std::map<int, MyGUI::Path *>` -/

/-- Lookup `pathMap.find(key)`: `none` is `pathMap.end()`. -/
def find {V : Type} : List (Int × V) → Int → Option V
  | [], _ => none
  | (k, v) :: m, key => if k = key then some v else find m key

/-- Assignment `pathMap[key] = v`: overwrite the entry of `key`, or insert one. -/
def assign {V : Type} : List (Int × V) → Int → V → List (Int × V)
  | [], key, v => [(key, v)]
  | (k, w) :: m, key, v => if k = key then (k, v) :: m else (k, w) :: assign m key v

/-! ## State captured by the three lambdas -/

/-- Undefined behaviour a handler can run into. -/
inductive Fault where
  | nullDeref
  | outOfRange
deriving DecidableEq, Repr

/-- The locals of `main` the handlers capture by reference. `nextAddr` counts the
`new MyGUI::Path` executed so far and is the address of the next one. -/
structure State (R : Type) where
  pathMap : List (Int × Option (Path R))
  nextAddr : Nat
  lastMapIndex_path : Int
  cubes : List (Cube R)
  errorCubes : List (Cube R)
  T_K_cubes : List (Matrix4d R)
  K_cubes : List (Option Nat)
deriving DecidableEq, Repr

/-- The state when the handlers are registered: everything empty,
`lastMapIndex_path = 0`. -/
def init {R : Type} : State R where
  pathMap := []
  nextAddr := 0
  lastMapIndex_path := 0
  cubes := []
  errorCubes := []
  T_K_cubes := []
  K_cubes := []

/-- The flag `const bool hideInactiveMaps = true;` of `main`. -/
def hideInactiveMaps : Bool := true

/-- The call `pathMap[key]->m()`: `operator[]` yields the stored pointer, or inserts and
yields `nullptr` when `key` is absent; the call through it runs `m` on the object
and is a fault when the pointer is null. -/
def callPath {R : Type} (m : Path R → Path R) (key : Int) (s : State R) :
    Except Fault (State R) :=
  match find s.pathMap key with
  | some (some p) => .ok { s with pathMap := assign s.pathMap key (some (m p)) }
  | some none => .error .nullDeref
  | none => .error .nullDeref

/-- Lines 135-139 of `handler`: create the path of `mapIndex` when
`pathMap.find(mapIndex) == pathMap.end()`, named `"path" + to_string(mapIndex)`,
coloured `(1, 0, 0)`, with no nodes. -/
def createPath {R : Type} [Zero R] [One R] (mapIndex : Int) (s : State R) : State R :=
  match find s.pathMap mapIndex with
  | none =>
    { s with
      pathMap := assign s.pathMap mapIndex
        (some ⟨s.nextAddr, "path" ++ toString mapIndex, [], ⟨1, 0, 0⟩⟩)
      nextAddr := s.nextAddr + 1 }
  | some _ => s

/-- Lines 140-145 of `handler`: on a change of the active index, clear the path
of the previous one (when `hideInactiveMaps`) and remember the new index. -/
def switchActive {R : Type} (mapIndex : Int) (s : State R) : Except Fault (State R) :=
  if s.lastMapIndex_path ≠ mapIndex then
    match (if hideInactiveMaps then callPath Path.clear s.lastMapIndex_path s else .ok s) with
    | .ok t => .ok { t with lastMapIndex_path := mapIndex }
    | .error e => .error e
  else .ok s

/-- Lines 152-165 of `handler`: a click builds the cube `CubeNum<n>`, `n` the number
of click cubes so far, calls `set_transform(transform)` on it, and pushes it onto
`cubes`, `frame->T_KS_` onto `T_K_cubes` and `frame->keyframe_` onto `K_cubes`. The
pose the `Cube` constructor leaves is overwritten by `set_transform` before anything
reads it, so the cube is built with that pose; its edge lengths play no role in the
handlers and are not kept. -/
def placeCube {R : Type} (frame : MultiCameraFrame R) (s : State R) : State R :=
  { s with
    cubes := s.cubes ++
      [Cube.set_transform frame.T_WC3 ⟨"CubeNum" ++ toString s.cubes.length, frame.T_WC3⟩]
    T_K_cubes := s.T_K_cubes ++ [frame.T_KS_]
    K_cubes := s.K_cubes ++ [frame.keyframe_] }

/-- Lines 166-179 of `handler`: an `r` press builds the cube `MarkerCube<n>`, `n` the
number of marker cubes so far, calls `set_transform(transform)` on it, and pushes it
onto `errorCubes`, and `frame->T_KS_` and `frame->keyframe_` onto the same
`T_K_cubes` and `K_cubes` the click block uses. -/
def placeMarkerCube {R : Type} (frame : MultiCameraFrame R) (s : State R) : State R :=
  { s with
    errorCubes := s.errorCubes ++
      [Cube.set_transform frame.T_WC3
        ⟨"MarkerCube" ++ toString s.errorCubes.length, frame.T_WC3⟩]
    T_K_cubes := s.T_K_cubes ++ [frame.T_KS_]
    K_cubes := s.K_cubes ++ [frame.keyframe_] }

/-- Lines 152-179 of `handler`: the click block, then the `r` block. -/
def place {R : Type} (frame : MultiCameraFrame R) (clicked rPressed : Bool) (s : State R) :
    State R :=
  let s4 := if clicked then placeCube frame s else s
  if rPressed then placeMarkerCube frame s4 else s4

/-- The `FrameAvailableHandler` lambda (lines 131-180). `mapIndex` is what
`slam.getActiveMapIndex()` answers, `clicked` and `rPressed` what
`ar_win.clicked()` and `ar_win.rPressed()` answer. -/
def handler {R : Type} [Zero R] [One R] (frame : MultiCameraFrame R) (mapIndex : Int)
    (clicked rPressed : Bool) (s : State R) : Except Fault (State R) :=
  match switchActive mapIndex (createPath mapIndex s) with
  | .error e => .error e
  | .ok s2 =>
    match callPath (Path.add_node frame.T_WC3.translation) mapIndex s2 with
    | .error e => .error e
    | .ok s3 => .ok (place frame clicked rPressed s3)

/-- The loop `for i < traj.size(): pathMap[key]->add_node(traj[i].block<3,1>(0,3))`. -/
def addNodes {R : Type} (key : Int) : List (Matrix4d R) → State R → Except Fault (State R)
  | [], s => .ok s
  | T :: rest, s =>
    match callPath (Path.add_node T.translation) key s with
    | .ok s1 => addNodes key rest s1
    | .error e => .error e

/-- The block `pathMap[key]->clear();` followed by the `add_node` loop, shared by
`loopHandler` (lines 192-196) and `mergeHandler` (lines 209-212). -/
def refill {R : Type} (key : Int) (traj : List (Matrix4d R)) (s : State R) :
    Except Fault (State R) :=
  match callPath Path.clear key s with
  | .ok s1 => addNodes key traj s1
  | .error e => .error e

/-- Lines 197-201 of `loopHandler`: `n` more rounds of the loop over `cubes`
starting at index `i`; round `i` reads `K_cubes[i]` and, when it is not null,
`T_K_cubes[i]`, and sets the pose of `cubes[i]`. -/
def refreshCubes {R : Type} [Add R] [Mul R] (T_WS : Nat → Matrix4d R) :
    Nat → Nat → State R → Except Fault (State R)
  | 0, _, s => .ok s
  | n + 1, i, s =>
    match s.K_cubes[i]? with
    | none => .error .outOfRange
    | some none => refreshCubes T_WS n (i + 1) s
    | some (some k) =>
      match s.T_K_cubes[i]? with
      | none => .error .outOfRange
      | some T =>
        refreshCubes T_WS n (i + 1)
          { s with cubes := s.cubes.modify (Cube.set_transform ((T_WS k).mul T)) i }

/-- The `LoopClosureDetectedHandler` lambda (lines 188-202). `traj` is what
`slam.getTrajectory` fills in, `mapIndex` what `slam.getActiveMapIndex()` answers,
`T_WS k` what keyframe `k` answers to `T_WS()`. -/
def loopHandler {R : Type} [Add R] [Mul R] (traj : List (Matrix4d R)) (mapIndex : Int)
    (T_WS : Nat → Matrix4d R) (s : State R) : Except Fault (State R) :=
  match refill mapIndex traj s with
  | .ok s1 => refreshCubes T_WS s1.cubes.length 0 s1
  | .error e => .error e

/-- The `SparseMapMergeHandler` lambda (lines 205-213). `traj` is what
`slam.getMap(currentIndex)->getTrajectory` fills in. -/
def mergeHandler {R : Type} (deletedIndex currentIndex : Int) (traj : List (Matrix4d R))
    (s : State R) : Except Fault (State R) :=
  match callPath Path.clear deletedIndex s with
  | .ok s1 => refill currentIndex traj s1
  | .error e => .error e

/-- One notification of the SLAM pipeline, with what the handler reads from the
backend while it runs. -/
inductive Event (R : Type) where
  | frame (f : MultiCameraFrame R) (mapIndex : Int) (clicked rPressed : Bool)
  | loopClosure (traj : List (Matrix4d R)) (mapIndex : Int) (T_WS : Nat → Matrix4d R)
  | merge (deletedIndex currentIndex : Int) (traj : List (Matrix4d R))

/-- Dispatch one event to its handler. -/
def step {R : Type} [Zero R] [One R] [Add R] [Mul R] (s : State R) :
    Event R → Except Fault (State R)
  | .frame f mapIndex clicked rPressed => handler f mapIndex clicked rPressed s
  | .loopClosure traj mapIndex T_WS => loopHandler traj mapIndex T_WS s
  | .merge d c traj => mergeHandler d c traj s

/-- Apply the events in the order raised; the first fault ends the run. -/
def run {R : Type} [Zero R] [One R] [Add R] [Mul R] :
    List (Event R) → State R → Except Fault (State R)
  | [], s => .ok s
  | e :: es, s =>
    match step s e with
    | .ok s1 => run es s1
    | .error f => .error f

/-- The nodes of the path registered under `key`, when there is one. -/
def nodesOf {R : Type} (s : State R) (key : Int) : Option (List (Vector3d R)) :=
  match find s.pathMap key with
  | some (some p) => some p.nodes
  | _ => none

/-- What round `j` of the refresh loop leaves in `cubes[j]`: the cube moved to
`K_cubes[j]->T_WS() * T_K_cubes[j]` when `K_cubes[j]` is not null, the cube as it was
otherwise. -/
def refreshedCube {R : Type} [Add R] [Mul R] (T_WS : Nat → Matrix4d R) (s : State R)
    (j : Nat) : Option (Cube R) :=
  match s.K_cubes[j]?, s.T_K_cubes[j]? with
  | some (some k), some T => (s.cubes[j]?).map (Cube.set_transform ((T_WS k).mul T))
  | _, _ => s.cubes[j]?

/-- The four anchor vectors of a state. -/
def anchorPart {R : Type} (s : State R) :
    List (Cube R) × List (Cube R) × List (Matrix4d R) × List (Option Nat) :=
  (s.cubes, s.errorCubes, s.T_K_cubes, s.K_cubes)

/-! ## Concrete data used in the worked examples -/

/-- The rigid transform with identity rotation and translation `(a, b, c)`. -/
def shift (a b c : Int) : Matrix4d Int :=
  ⟨1, 0, 0, a, 0, 1, 0, b, 0, 0, 1, c, 0, 0, 0, 1⟩

/-- A frame whose camera sits at `(a, 0, 0)`, with `T_KS_` the shift by `(0, b, 0)`. -/
def frameAt (a b : Int) (k : Option Nat) : MultiCameraFrame Int :=
  ⟨shift a 0 0, shift 0 b 0, k⟩

/-- A path of map 0 holding the two nodes `(5, 0, 0)` and `(6, 0, 0)`. -/
def path0 : Path Int :=
  ⟨0, "path0", [⟨5, 0, 0⟩, ⟨6, 0, 0⟩], ⟨1, 0, 0⟩⟩

/-- Map 0 is active and has the path `path0`; no cube has been placed. -/
def oneMap : State Int where
  pathMap := [(0, some path0)]
  nextAddr := 1
  lastMapIndex_path := 0
  cubes := []
  errorCubes := []
  T_K_cubes := []
  K_cubes := []

/-- A path of map 1 holding the single node `(9, 0, 0)`. -/
def path1 : Path Int :=
  ⟨1, "path1", [⟨9, 0, 0⟩], ⟨1, 0, 0⟩⟩

/-- Maps 0 and 1 both have a path, map 1 is active; no cube has been placed. -/
def twoMaps : State Int where
  pathMap := [(0, some path0), (1, some path1)]
  nextAddr := 2
  lastMapIndex_path := 1
  cubes := []
  errorCubes := []
  T_K_cubes := []
  K_cubes := []

/-- The events of consecutive frames that all report `i` as the active index; each
frame comes with what `clicked()` and `rPressed()` answer while it is handled. -/
def framesAt {R : Type} (i : Int) (fs : List (MultiCameraFrame R × Bool × Bool)) :
    List (Event R) :=
  fs.map (fun x => Event.frame x.1 i x.2.1 x.2.2)

/-- The keyframe of backend identity `k` sits at `(0, 0, 10 (k + 1))`. -/
def kfPose (k : Nat) : Matrix4d Int :=
  shift 0 0 (10 * (k + 1))

/-- The event is not a frame handled while `r` is pressed. -/
def Event.noMarker {R : Type} : Event R → Bool
  | .frame _ _ _ rPressed => !rPressed
  | _ => true

/-- The keyframe and relative transform each click of a history records, in order
of placement. -/
def clickLog {R : Type} : List (Event R) → List (Option Nat × Matrix4d R)
  | [] => []
  | .frame f _ true _ :: es => (f.keyframe_, f.T_KS_) :: clickLog es
  | _ :: es => clickLog es

/-- A click on keyframe 0 with relative transform `shift 0 1 0`, camera at
`(5, 0, 0)`, on map 0. -/
def clickOnKeyframe0 : Event Int :=
  Event.frame (frameAt 5 1 (some 0)) 0 true false

/-- An `r` press on keyframe 1 with relative transform `shift 0 2 0`, camera at
`(6, 0, 0)`, on map 0. -/
def markerOnKeyframe1 : Event Int :=
  Event.frame (frameAt 6 2 (some 1)) 0 false true

/-- The state `init` reaches through `clickOnKeyframe0` and `markerOnKeyframe1`. -/
def afterClickAndMarker : State Int where
  pathMap := [(0, some ⟨0, "path0", [⟨5, 0, 0⟩, ⟨6, 0, 0⟩], ⟨1, 0, 0⟩⟩)]
  nextAddr := 1
  lastMapIndex_path := 0
  cubes := [⟨"CubeNum0", shift 5 0 0⟩]
  errorCubes := [⟨"MarkerCube0", shift 6 0 0⟩]
  T_K_cubes := [shift 0 1 0, shift 0 2 0]
  K_cubes := [some 0, some 1]

/-- The keyframe and relative transform recorded by the clicks handled up to and
including the first frame handled with `r` pressed, in order of placement. In a
frame with both a click and an `r` press the click block runs first, so its click
still belongs to the list. -/
def clicksUpToFirstMarker {R : Type} : List (Event R) → List (Option Nat × Matrix4d R)
  | [] => []
  | .frame f _ true false :: es => (f.keyframe_, f.T_KS_) :: clicksUpToFirstMarker es
  | .frame _ _ false false :: es => clicksUpToFirstMarker es
  | .frame f _ true true :: _ => [(f.keyframe_, f.T_KS_)]
  | .frame _ _ false true :: _ => []
  | .loopClosure _ _ _ :: es => clicksUpToFirstMarker es
  | .merge _ _ _ :: es => clicksUpToFirstMarker es

/-- A frame on map 0 handled with both a click and an `r` press, on keyframe 0 with
relative transform `shift 0 1 0`, camera at `(5, 0, 0)`. -/
def clickAndMarkerOnKeyframe0 : Event Int :=
  Event.frame (frameAt 5 1 (some 0)) 0 true true

/-- The state `init` reaches through `clickAndMarkerOnKeyframe0`. -/
def afterClickAndMarkerInOneFrame : State Int where
  pathMap := [(0, some ⟨0, "path0", [⟨5, 0, 0⟩], ⟨1, 0, 0⟩⟩)]
  nextAddr := 1
  lastMapIndex_path := 0
  cubes := [⟨"CubeNum0", shift 5 0 0⟩]
  errorCubes := [⟨"MarkerCube0", shift 5 0 0⟩]
  T_K_cubes := [shift 0 1 0, shift 0 1 0]
  K_cubes := [some 0, some 0]

/-! ## The registry map -/

theorem find_assign_same {V : Type} (m : List (Int × V)) (key : Int) (v : V) :
    find (assign m key v) key = some v := by
  induction m with
  | nil => simp [assign, find]
  | cons e m ih =>
    obtain ⟨k, w⟩ := e
    by_cases h : k = key <;> simp [assign, find, h, ih]

theorem find_assign_ne {V : Type} (m : List (Int × V)) (key j : Int) (v : V)
    (h : key ≠ j) : find (assign m key v) j = find m j := by
  induction m with
  | nil => simp [assign, find, h]
  | cons e m ih =>
    obtain ⟨k, w⟩ := e
    by_cases hk : k = key
    · subst hk; simp [assign, find, h]
    · by_cases hj : k = j
      · subst hj; simp [assign, find, hk]
      · simp [assign, find, hk, hj, ih]

theorem assign_assign {V : Type} (m : List (Int × V)) (key : Int) (v w : V) :
    assign (assign m key v) key w = assign m key w := by
  induction m with
  | nil => simp [assign]
  | cons e m ih =>
    obtain ⟨k, u⟩ := e
    by_cases h : k = key <;> simp [assign, h, ih]

theorem assign_find {V : Type} (m : List (Int × V)) (key : Int) (v : V)
    (h : find m key = some v) : assign m key v = m := by
  induction m with
  | nil => simp [find] at h
  | cons e m ih =>
    obtain ⟨k, u⟩ := e
    by_cases hk : k = key
    · simp [find, hk] at h; simp [assign, hk, h]
    · simp [find, hk] at h; simp [assign, hk, ih h]

/-! ## Calls through a registry entry -/

theorem callPath_ok {R : Type} (m : Path R → Path R) (key : Int) (s : State R) (p : Path R)
    (h : find s.pathMap key = some (some p)) :
    callPath m key s = .ok { s with pathMap := assign s.pathMap key (some (m p)) } := by
  simp [callPath, h]

theorem callPath_null {R : Type} (m : Path R → Path R) (key : Int) (s : State R)
    (h : ∀ p, find s.pathMap key ≠ some (some p)) :
    callPath m key s = .error .nullDeref := by
  unfold callPath
  split
  · next p hp => exact absurd hp (h p)
  · rfl
  · rfl

theorem addNodes_ok {R : Type} (key : Int) (traj : List (Matrix4d R)) (s : State R)
    (p : Path R) (h : find s.pathMap key = some (some p)) :
    addNodes key traj s = .ok
      { s with
        pathMap := assign s.pathMap key
          (some { p with nodes := p.nodes ++ traj.map Matrix4d.translation }) } := by
  induction traj generalizing s p with
  | nil =>
    simp only [addNodes, List.map_nil, List.append_nil]
    rw [assign_find _ _ _ h]
  | cons T rest ih =>
    simp only [addNodes, callPath_ok _ key s p h]
    rw [ih _ (Path.add_node T.translation p) (by simp [find_assign_same])]
    simp [assign_assign, Path.add_node]


theorem refill_ok {R : Type} (key : Int) (traj : List (Matrix4d R)) (s : State R)
    (p : Path R) (h : find s.pathMap key = some (some p)) :
    refill key traj s = .ok
      { s with
        pathMap := assign s.pathMap key
          (some { p with nodes := traj.map Matrix4d.translation }) } := by
  simp only [refill, callPath_ok _ key s p h]
  rw [addNodes_ok key traj _ p.clear (by simp [find_assign_same])]
  simp [assign_assign, Path.clear]

/-! ## The cube refresh loop -/

theorem refreshCubes_ok {R : Type} [Add R] [Mul R] (T_WS : Nat → Matrix4d R) (n i : Nat)
    (s : State R) (hK : i + n ≤ s.K_cubes.length) (hT : i + n ≤ s.T_K_cubes.length) :
    ∃ cs : List (Cube R),
      refreshCubes T_WS n i s = .ok { s with cubes := cs } ∧
      cs.length = s.cubes.length ∧
      ∀ j, cs[j]? = if i ≤ j ∧ j < i + n then refreshedCube T_WS s j else s.cubes[j]? := by
  induction n generalizing i s with
  | zero =>
    refine ⟨s.cubes, by simp [refreshCubes], rfl, ?_⟩
    intro j
    have : ¬ (i ≤ j ∧ j < i + 0) := by omega
    rw [if_neg this]
  | succ n ih =>
    have hi : i < s.K_cubes.length := by omega
    have hi2 : i < s.T_K_cubes.length := by omega
    obtain ⟨kv, hkv⟩ : ∃ kv, s.K_cubes[i]? = some kv := ⟨_, List.getElem?_eq_getElem hi⟩
    obtain ⟨T, hTv⟩ : ∃ T, s.T_K_cubes[i]? = some T := ⟨_, List.getElem?_eq_getElem hi2⟩
    cases kv with
    | none =>
      obtain ⟨cs, hrun, hlen, hget⟩ := ih (i + 1) s (by omega) (by omega)
      refine ⟨cs, by simp [refreshCubes, hkv, hrun], hlen, ?_⟩
      intro j
      rw [hget j]
      by_cases hj : j = i
      · subst hj
        have h1 : ¬ (j + 1 ≤ j ∧ j < j + 1 + n) := by omega
        have h2 : j ≤ j ∧ j < j + (n + 1) := by omega
        simp [h1, h2, refreshedCube, hkv]
      · by_cases hr : i + 1 ≤ j ∧ j < i + 1 + n
        · have h2 : i ≤ j ∧ j < i + (n + 1) := by omega
          simp [hr, h2]
        · have h2 : ¬ (i ≤ j ∧ j < i + (n + 1)) := by omega
          simp [hr, h2]
    | some k =>
      obtain ⟨cs, hrun, hlen, hget⟩ :=
        ih (i + 1) { s with cubes := s.cubes.modify (Cube.set_transform ((T_WS k).mul T)) i }
          (by simpa using (by omega : i + 1 + n ≤ s.K_cubes.length))
          (by simpa using (by omega : i + 1 + n ≤ s.T_K_cubes.length))
      refine ⟨cs, by simp [refreshCubes, hkv, hTv, hrun], by simpa using hlen, ?_⟩
      intro j
      rw [hget j]
      by_cases hj : j = i
      · subst hj
        have h1 : ¬ (j + 1 ≤ j ∧ j < j + 1 + n) := by omega
        have h2 : j ≤ j ∧ j < j + (n + 1) := by omega
        simp [h1, h2, refreshedCube, hkv, hTv]
      · have hne : i ≠ j := fun h => hj h.symm
        by_cases hr : i + 1 ≤ j ∧ j < i + 1 + n
        · have h2 : i ≤ j ∧ j < i + (n + 1) := by omega
          simp [hr, h2, refreshedCube, List.getElem?_modify_ne _ _ hne]
        · have h2 : ¬ (i ≤ j ∧ j < i + (n + 1)) := by omega
          simp [hr, h2, List.getElem?_modify_ne _ _ hne]

theorem loopHandler_ok {R : Type} [Add R] [Mul R] (traj : List (Matrix4d R)) (mapIndex : Int)
    (T_WS : Nat → Matrix4d R) (s : State R) (p : Path R)
    (hp : find s.pathMap mapIndex = some (some p))
    (hK : s.cubes.length ≤ s.K_cubes.length) (hT : s.cubes.length ≤ s.T_K_cubes.length) :
    ∃ cs : List (Cube R),
      loopHandler traj mapIndex T_WS s = .ok
        { s with
          pathMap := assign s.pathMap mapIndex
            (some { p with nodes := traj.map Matrix4d.translation })
          cubes := cs } ∧
      cs.length = s.cubes.length ∧
      ∀ j, cs[j]? = if j < s.cubes.length then refreshedCube T_WS s j else s.cubes[j]? := by
  obtain ⟨cs, hrun, hlen, hget⟩ := refreshCubes_ok T_WS s.cubes.length 0
    { s with
      pathMap := assign s.pathMap mapIndex
        (some { p with nodes := traj.map Matrix4d.translation }) }
    (by simpa using hK) (by simpa using hT)
  refine ⟨cs, ?_, by simpa using hlen, ?_⟩
  · simp only [loopHandler, refill_ok mapIndex traj s p hp]
    exact hrun
  · intro j
    rw [hget j]
    simp [refreshedCube]

/-! ## Loop closure replaces the active path -/

/-- C1: in every state where the active map index `i` has a path `p` (with
arbitrary nodes) and the anchor vectors are index-aligned as `loopHandler` reads
them, `loopHandler` with backend trajectory `P` completes, and afterwards the
entry of `i` is the same path object with `nodes` equal to the translation columns
of `P`, in order and of the same length. -/
theorem loopHandler_replacement_exact {R : Type} [Add R] [Mul R] (s : State R) (i : Int)
    (p : Path R) (P : List (Matrix4d R)) (T_WS : Nat → Matrix4d R)
    (hp : find s.pathMap i = some (some p))
    (hK : s.cubes.length ≤ s.K_cubes.length) (hT : s.cubes.length ≤ s.T_K_cubes.length) :
    ∃ s1 : State R,
      loopHandler P i T_WS s = .ok s1 ∧
      find s1.pathMap i = some (some { p with nodes := P.map Matrix4d.translation }) ∧
      nodesOf s1 i = some (P.map Matrix4d.translation) ∧
      (P.map Matrix4d.translation).length = P.length := by
  obtain ⟨cs, hrun, _, _⟩ := loopHandler_ok P i T_WS s p hp hK hT
  refine ⟨_, hrun, ?_, ?_, by simp⟩
  · simp [find_assign_same]
  · simp [nodesOf, find_assign_same]

/-- Witness of C1 on `oneMap`: the two old nodes of map 0 give way to the three
corrected ones. -/
theorem loopHandler_replacement_exact_witness :
    find oneMap.pathMap 0 = some (some path0) ∧
    oneMap.cubes.length ≤ oneMap.K_cubes.length ∧
    oneMap.cubes.length ≤ oneMap.T_K_cubes.length ∧
    ∃ s1 : State Int,
      loopHandler [shift 1 2 3, shift 4 5 6, shift 7 8 9] 0 (fun _ => shift 0 0 0) oneMap
        = .ok s1 ∧
      find s1.pathMap 0 = some (some { path0 with
        nodes := [shift 1 2 3, shift 4 5 6, shift 7 8 9].map Matrix4d.translation }) ∧
      nodesOf s1 0 = some ([shift 1 2 3, shift 4 5 6, shift 7 8 9].map Matrix4d.translation) ∧
      ([shift 1 2 3, shift 4 5 6, shift 7 8 9].map Matrix4d.translation).length = 3 :=
  ⟨rfl, by decide, by decide,
    loopHandler_replacement_exact oneMap 0 path0 [shift 1 2 3, shift 4 5 6, shift 7 8 9]
      (fun _ => shift 0 0 0) rfl (by decide) (by decide)⟩

/-! ## Map merge -/

theorem mergeHandler_ok {R : Type} (d c : Int) (traj : List (Matrix4d R)) (s : State R)
    (pd pc : Path R) (hdc : d ≠ c) (hd : find s.pathMap d = some (some pd))
    (hc : find s.pathMap c = some (some pc)) :
    mergeHandler d c traj s = .ok
      { s with
        pathMap := assign (assign s.pathMap d (some pd.clear)) c
          (some { pc with nodes := traj.map Matrix4d.translation }) } := by
  simp only [mergeHandler, callPath_ok _ d s pd hd]
  rw [refill_ok c traj _ pc (by simpa [find_assign_ne _ _ _ _ hdc] using hc)]

/-- C2: for a deleted index `d` and a surviving index `c`, two different maps that
both have a path, `mergeHandler d c` with trajectory `Ps` completes; afterwards the
path of `d` is the same object with zero nodes and the path of `c` is the same
object holding exactly the translation columns of `Ps`, in order. -/
theorem mergeHandler_clears_and_refills {R : Type} (s : State R) (d c : Int)
    (pd pc : Path R) (Ps : List (Matrix4d R)) (hdc : d ≠ c)
    (hd : find s.pathMap d = some (some pd)) (hc : find s.pathMap c = some (some pc)) :
    ∃ s1 : State R,
      mergeHandler d c Ps s = .ok s1 ∧
      find s1.pathMap d = some (some { pd with nodes := [] }) ∧
      nodesOf s1 d = some [] ∧
      find s1.pathMap c = some (some { pc with nodes := Ps.map Matrix4d.translation }) ∧
      nodesOf s1 c = some (Ps.map Matrix4d.translation) := by
  refine ⟨_, mergeHandler_ok d c Ps s pd pc hdc hd hc, ?_, ?_, ?_, ?_⟩
  · simp [find_assign_ne _ _ _ _ (Ne.symm hdc), find_assign_same, Path.clear]
  · simp [nodesOf, find_assign_ne _ _ _ _ (Ne.symm hdc), find_assign_same, Path.clear]
  · simp [find_assign_same]
  · simp [nodesOf, find_assign_same]

/-- Witness of C2 on `twoMaps`: map 1 is merged into map 0. -/
theorem mergeHandler_clears_and_refills_witness :
    (1 : Int) ≠ 0 ∧
    find twoMaps.pathMap 1 = some (some path1) ∧
    find twoMaps.pathMap 0 = some (some path0) ∧
    ∃ s1 : State Int,
      mergeHandler 1 0 [shift 1 2 3, shift 4 5 6] twoMaps = .ok s1 ∧
      find s1.pathMap 1 = some (some { path1 with nodes := [] }) ∧
      nodesOf s1 1 = some [] ∧
      find s1.pathMap 0 = some (some { path0 with
        nodes := [shift 1 2 3, shift 4 5 6].map Matrix4d.translation }) ∧
      nodesOf s1 0 = some ([shift 1 2 3, shift 4 5 6].map Matrix4d.translation) :=
  ⟨by decide, rfl, rfl,
    mergeHandler_clears_and_refills twoMaps 1 0 path1 path0 [shift 1 2 3, shift 4 5 6]
      (by decide) rfl rfl⟩

/-! ## One frame -/

theorem place_pathMap {R : Type} (f : MultiCameraFrame R) (c r : Bool) (s : State R) :
    (place f c r s).pathMap = s.pathMap ∧
    (place f c r s).lastMapIndex_path = s.lastMapIndex_path ∧
    (place f c r s).nextAddr = s.nextAddr := by
  cases c <;> cases r <;> simp [place, placeCube, placeMarkerCube]

theorem anchorPart_place {R : Type} (f : MultiCameraFrame R) (c r : Bool) (s t : State R)
    (h : anchorPart s = anchorPart t) :
    anchorPart (place f c r s) = anchorPart (place f c r t) := by
  simp only [anchorPart, Prod.mk.injEq] at h
  obtain ⟨h1, h2, h3, h4⟩ := h
  cases c <;> cases r <;>
    simp [place, placeCube, placeMarkerCube, anchorPart, h1, h2, h3, h4]

theorem nodesOf_eq_of_find {R : Type} (s : State R) (key : Int) (p : Path R)
    (h : find s.pathMap key = some (some p)) : nodesOf s key = some p.nodes := by
  simp [nodesOf, h]

/-- The effect of `handler` on a state where the entry of `i`, if any, is not a
null pointer and the previously active index is `i` or has a path. -/
theorem handler_spec {R : Type} [Zero R] [One R] (f : MultiCameraFrame R) (i : Int)
    (c r : Bool) (s : State R) (h1 : find s.pathMap i ≠ some none)
    (h2 : s.lastMapIndex_path = i ∨
      ∃ q, find s.pathMap s.lastMapIndex_path = some (some q)) :
    ∃ (s1 : State R) (p1 : Path R),
      handler f i c r s = .ok s1 ∧
      s1.lastMapIndex_path = i ∧
      find s1.pathMap i = some (some p1) ∧
      p1.nodes = (nodesOf s i).getD [] ++ [f.T_WC3.translation] ∧
      (∀ p, find s.pathMap i = some (some p) →
        p1 = p.add_node f.T_WC3.translation) ∧
      (s.lastMapIndex_path ≠ i → ∀ q, find s.pathMap s.lastMapIndex_path = some (some q) →
        find s1.pathMap s.lastMapIndex_path = some (some q.clear)) ∧
      (∀ j, j ≠ i → j ≠ s.lastMapIndex_path → find s1.pathMap j = find s.pathMap j) ∧
      anchorPart s1 = anchorPart (place f c r s) := by
  -- the entry of `i` after the creation step
  obtain ⟨p0, hp0, hn0, hsame, hother, hlast, hanch⟩ :
      ∃ p0, find (createPath i s).pathMap i = some (some p0) ∧
        p0.nodes = (nodesOf s i).getD [] ∧
        (∀ p, find s.pathMap i = some (some p) → p0 = p) ∧
        (∀ j, j ≠ i → find (createPath i s).pathMap j = find s.pathMap j) ∧
        (createPath i s).lastMapIndex_path = s.lastMapIndex_path ∧
        anchorPart (createPath i s) = anchorPart s := by
    cases hf : find s.pathMap i with
    | none =>
      refine ⟨⟨s.nextAddr, "path" ++ toString i, [], ⟨1, 0, 0⟩⟩, ?_, ?_, ?_, ?_, ?_, ?_⟩
      · simp [createPath, hf, find_assign_same]
      · simp [nodesOf, hf]
      · intro p hp; simp at hp
      · intro j hj; simp [createPath, hf, find_assign_ne _ _ _ _ (Ne.symm hj)]
      · simp [createPath, hf]
      · simp [createPath, hf, anchorPart]
    | some v =>
      cases v with
      | none => exact absurd hf h1
      | some p =>
        refine ⟨p, ?_, ?_, ?_, ?_, ?_, ?_⟩
        · simp [createPath, hf]
        · simp [nodesOf, hf]
        · intro p' hp'; simp at hp'; exact hp'
        · intro j _; simp [createPath, hf]
        · simp [createPath, hf]
        · simp [createPath, hf]
  by_cases hl : s.lastMapIndex_path = i
  · -- no switch
    have hsw : switchActive i (createPath i s) = .ok (createPath i s) := by
      simp [switchActive, hlast, hl]
    have hrun : handler f i c r s = .ok (place f c r
        { createPath i s with
          pathMap := assign (createPath i s).pathMap i
            (some (p0.add_node f.T_WC3.translation)) }) := by
      simp only [handler, hsw, callPath_ok _ i _ p0 hp0]
    refine ⟨_, p0.add_node f.T_WC3.translation, hrun, ?_, ?_, ?_, ?_, ?_, ?_, ?_⟩
    · simp [(place_pathMap f c r _).2.1, hlast, hl]
    · simp [(place_pathMap f c r _).1, find_assign_same]
    · simp [Path.add_node, hn0]
    · intro p hp; rw [hsame p hp]
    · intro hne; exact absurd hl hne
    · intro j hj _
      simp [(place_pathMap f c r _).1, find_assign_ne _ _ _ _ (Ne.symm hj), hother j hj]
    · apply anchorPart_place
      simpa [anchorPart] using hanch
  · -- switch: the previous path is cleared first
    obtain ⟨q, hq⟩ : ∃ q, find s.pathMap s.lastMapIndex_path = some (some q) := by
      rcases h2 with h | h
      · exact absurd h hl
      · exact h
    have hq1 : find (createPath i s).pathMap s.lastMapIndex_path = some (some q) := by
      rw [hother _ hl]; exact hq
    have hcl := callPath_ok Path.clear s.lastMapIndex_path (createPath i s) q hq1
    have hsw : switchActive i (createPath i s) = .ok
        { createPath i s with
          pathMap := assign (createPath i s).pathMap s.lastMapIndex_path (some q.clear)
          lastMapIndex_path := i } := by
      simp [switchActive, hlast, hl, hideInactiveMaps, hcl]
    have hp0' : find (assign (createPath i s).pathMap s.lastMapIndex_path (some q.clear)) i
        = some (some p0) := by
      rw [find_assign_ne _ _ _ _ hl]; exact hp0
    have hrun : handler f i c r s = .ok (place f c r
        { createPath i s with
          pathMap := assign
            (assign (createPath i s).pathMap s.lastMapIndex_path (some q.clear)) i
            (some (p0.add_node f.T_WC3.translation))
          lastMapIndex_path := i }) := by
      simp only [handler, hsw]
      rw [callPath_ok _ i _ p0 (by simpa using hp0')]
    refine ⟨_, p0.add_node f.T_WC3.translation, hrun, ?_, ?_, ?_, ?_, ?_, ?_, ?_⟩
    · simp [(place_pathMap f c r _).2.1]
    · simp [(place_pathMap f c r _).1, find_assign_same]
    · simp [Path.add_node, hn0]
    · intro p hp; rw [hsame p hp]
    · intro _ q' hq'
      have : q' = q := by rw [hq] at hq'; simpa using hq'.symm
      subst this
      simp [(place_pathMap f c r _).1, find_assign_ne _ _ _ _ (Ne.symm hl), find_assign_same]
    · intro j hj hjl
      simp [(place_pathMap f c r _).1, find_assign_ne _ _ _ _ (Ne.symm hj),
        find_assign_ne _ _ _ _ (Ne.symm hjl), hother j hj]
    · apply anchorPart_place
      simpa [anchorPart] using hanch

/-! ## Runs of frames on one index -/

/-- Frames that all report `i`, started where the entry of `i` is not a null
pointer and the previously active index is `i` or has a path: the run completes,
the path of `i` keeps its nodes and gains the camera positions in arrival order,
the previously active path is cleared once, every other entry is untouched. -/
theorem framesAt_spec {R : Type} [Zero R] [One R] [Add R] [Mul R] (i : Int)
    (fs : List (MultiCameraFrame R × Bool × Bool)) (s : State R)
    (h1 : find s.pathMap i ≠ some none)
    (h2 : s.lastMapIndex_path = i ∨
      ∃ q, find s.pathMap s.lastMapIndex_path = some (some q)) :
    ∃ s1 : State R,
      run (framesAt i fs) s = .ok s1 ∧
      find s1.pathMap i ≠ some none ∧
      (nodesOf s1 i).getD [] =
        (nodesOf s i).getD [] ++ fs.map (fun x => x.1.T_WC3.translation) ∧
      (fs ≠ [] → s1.lastMapIndex_path = i ∧ ∃ p1, find s1.pathMap i = some (some p1)) ∧
      (fs ≠ [] → s.lastMapIndex_path ≠ i →
        ∀ q, find s.pathMap s.lastMapIndex_path = some (some q) →
          find s1.pathMap s.lastMapIndex_path = some (some q.clear)) ∧
      (∀ j, j ≠ i → j ≠ s.lastMapIndex_path → find s1.pathMap j = find s.pathMap j) := by
  induction fs generalizing s with
  | nil =>
    refine ⟨s, rfl, h1, by simp, ?_, ?_, ?_⟩
    · intro h; exact absurd rfl h
    · intro h; exact absurd rfl h
    · intro j _ _; rfl
  | cons x fs ih =>
    obtain ⟨s1, p1, hrun, hlast, hp1, hn1, _, hold, hoth, _⟩ :=
      handler_spec x.1 i x.2.1 x.2.2 s h1 h2
    obtain ⟨s2, hrun2, hne2, hn2, hl2, _, hoth2⟩ :=
      ih s1 (by rw [hp1]; simp) (Or.inl hlast)
    have hstep : run (framesAt i (x :: fs)) s = .ok s2 := by
      simp only [framesAt, List.map_cons, run, step, hrun]
      exact hrun2
    refine ⟨s2, hstep, hne2, ?_, ?_, ?_, ?_⟩
    · rw [hn2, nodesOf_eq_of_find s1 i p1 hp1, Option.getD_some, hn1]
      simp
    · intro _
      by_cases hfs : fs = []
      · subst hfs
        simp only [framesAt, List.map_nil, run] at hrun2
        cases hrun2
        exact ⟨hlast, p1, hp1⟩
      · exact hl2 hfs
    · intro _ hne q hq
      rw [hoth2 _ hne (by rw [hlast]; exact hne)]
      exact hold hne q hq
    · intro j hj hjl
      rw [hoth2 j hj (by rw [hlast]; exact hj)]
      exact hoth j hj hjl

/-- C3, failing input: from the initial state two frames that both report the
never-seen index 2 do not produce a path with their two camera positions; the
first one already dereferences the null entry `pathMap[0]`. -/
theorem framesAt_unseen_index_fault :
    run (framesAt 2 [(frameAt 5 0 none, false, false), (frameAt 6 0 none, false, false)])
      (init : State Int) = .error .nullDeref :=
  rfl

/-- C6, failing input: in the initial state a frame for map index 1 makes `handler`
create `path1` and then call `clear` through the entry `pathMap[0]`, which
`operator[]` has just inserted as a null pointer. -/
theorem handler_unseen_index_fault :
    (init : State Int).pathMap = [] ∧
    handler (frameAt 5 0 none) 1 false false (init : State Int) = .error .nullDeref :=
  ⟨rfl, rfl⟩

/-- C7, failing input: on `oneMap`, where only map 0 has a path, a merge event
naming 1 as the deleted index calls `clear` through the null pointer `pathMap[1]`. -/
theorem mergeHandler_absent_deleted_fault :
    find oneMap.pathMap 1 = none ∧
    find oneMap.pathMap 0 = some (some path0) ∧
    mergeHandler 1 0 [shift 1 2 3] oneMap = .error .nullDeref :=
  ⟨rfl, rfl, rfl⟩

/-! ## Switching the active map away and back -/

/-- C8, as stated, fails: on `oneMap` (map 0 active, two nodes) a frame for map 1
followed by a frame for map 0 leaves map 0 with one node, the position of the
returning frame, not with an empty path. -/
theorem switch_back_not_empty :
    oneMap.lastMapIndex_path = 0 ∧
    nodesOf oneMap 0 = some [⟨5, 0, 0⟩, ⟨6, 0, 0⟩] ∧
    ∃ s2 : State Int,
      run [Event.frame (frameAt 7 0 none) 1 false false,
           Event.frame (frameAt 8 0 none) 0 false false] oneMap = .ok s2 ∧
      nodesOf s2 0 = some [⟨8, 0, 0⟩] ∧
      nodesOf s2 0 ≠ some [] :=
  ⟨rfl, rfl, _, rfl, rfl, by decide⟩

/-- C8, amended: for distinct indices `a` and `b`, from a state where `a` is active
and has a path, frames that switch to `b` leave the path of `a` empty, and the frame
that switches back to `a` leaves it holding exactly that frame's camera position
(none of the earlier nodes), while the path of `b` is empty in turn. -/
theorem switch_away_and_back {R : Type} [Zero R] [One R] [Add R] [Mul R] (a b : Int)
    (s : State R) (pa : Path R) (fb : MultiCameraFrame R × Bool × Bool)
    (fsb : List (MultiCameraFrame R × Bool × Bool)) (fa : MultiCameraFrame R)
    (ca ra : Bool) (hab : a ≠ b) (hact : s.lastMapIndex_path = a)
    (hpa : find s.pathMap a = some (some pa)) (hb : find s.pathMap b ≠ some none) :
    ∃ s1 s2 : State R,
      run (framesAt b (fb :: fsb)) s = .ok s1 ∧
      nodesOf s1 a = some [] ∧
      handler fa a ca ra s1 = .ok s2 ∧
      nodesOf s2 a = some [fa.T_WC3.translation] ∧
      nodesOf s2 b = some [] := by
  obtain ⟨s1, hrun1, _, _, hl1, hcl1, _⟩ :=
    framesAt_spec b (fb :: fsb) s hb (Or.inr ⟨pa, by rw [hact]; exact hpa⟩)
  obtain ⟨hlast1, pb, hpb⟩ := hl1 (by simp)
  have hpa1 : find s1.pathMap a = some (some pa.clear) := by
    have := hcl1 (by simp) (by rw [hact]; exact hab) pa (by rw [hact]; exact hpa)
    rwa [hact] at this
  obtain ⟨s2, p2, hrun2, _, hp2, hn2, _, hcl2, _, _⟩ :=
    handler_spec fa a ca ra s1 (by rw [hpa1]; simp)
      (Or.inr ⟨pb, by rw [hlast1]; exact hpb⟩)
  refine ⟨s1, s2, hrun1, ?_, hrun2, ?_, ?_⟩
  · simp [nodesOf, hpa1, Path.clear]
  · rw [nodesOf_eq_of_find s2 a p2 hp2, hn2, nodesOf_eq_of_find s1 a _ hpa1]
    simp [Path.clear]
  · have := hcl2 (by rw [hlast1]; exact Ne.symm hab) pb (by rw [hlast1]; exact hpb)
    rw [hlast1] at this
    simp [nodesOf, this, Path.clear]

/-- Witness of amended C8 on `oneMap`: away to the never-seen map 1 for two frames,
then back to map 0. -/
theorem switch_away_and_back_witness :
    (0 : Int) ≠ 1 ∧ oneMap.lastMapIndex_path = 0 ∧
    find oneMap.pathMap 0 = some (some path0) ∧ find oneMap.pathMap 1 ≠ some none ∧
    ∃ s1 s2 : State Int,
      run (framesAt 1 [(frameAt 7 0 none, false, false), (frameAt 8 0 none, false, false)])
        oneMap = .ok s1 ∧
      nodesOf s1 0 = some [] ∧
      handler (frameAt 9 0 none) 0 false false s1 = .ok s2 ∧
      nodesOf s2 0 = some [(frameAt 9 0 none).T_WC3.translation] ∧
      nodesOf s2 1 = some [] :=
  ⟨by decide, rfl, rfl, by decide,
    switch_away_and_back 0 1 oneMap path0 (frameAt 7 0 none, false, false)
      [(frameAt 8 0 none, false, false)] (frameAt 9 0 none) false false
      (by decide) rfl rfl (by decide)⟩

/-! ## The path-creation step -/

theorem filter_key_of_find_none {V : Type} (m : List (Int × V)) (key : Int)
    (h : find m key = none) : m.filter (fun e => decide (e.1 = key)) = [] := by
  induction m with
  | nil => rfl
  | cons e m ih =>
    obtain ⟨k, w⟩ := e
    by_cases hk : k = key
    · simp [find, hk] at h
    · simp [find, hk] at h
      simp [List.filter_cons, hk, ih h]

theorem filter_key_assign_fresh {V : Type} (m : List (Int × V)) (key : Int) (v : V)
    (h : find m key = none) :
    (assign m key v).filter (fun e => decide (e.1 = key)) = [(key, v)] := by
  induction m with
  | nil => simp [assign]
  | cons e m ih =>
    obtain ⟨k, w⟩ := e
    by_cases hk : k = key
    · simp [find, hk] at h
    · simp [find, hk] at h
      simp [assign, List.filter_cons, hk, ih h]

theorem length_assign_fresh {V : Type} (m : List (Int × V)) (key : Int) (v : V)
    (h : find m key = none) : (assign m key v).length = m.length + 1 := by
  induction m with
  | nil => simp [assign]
  | cons e m ih =>
    obtain ⟨k, w⟩ := e
    by_cases hk : k = key
    · simp [find, hk] at h
    · simp [find, hk] at h
      simp [assign, hk, ih h]

theorem createPath_of_present {R : Type} [Zero R] [One R] (i : Int) (s : State R)
    (v : Option (Path R)) (h : find s.pathMap i = some v) : createPath i s = s := by
  simp [createPath, h]

theorem createPath_twice {R : Type} [Zero R] [One R] (i : Int) (s : State R) :
    createPath i (createPath i s) = createPath i s := by
  cases hf : find s.pathMap i with
  | none =>
    apply createPath_of_present i _ (some ⟨s.nextAddr, "path" ++ toString i, [], ⟨1, 0, 0⟩⟩)
    simp [createPath, hf, find_assign_same]
  | some v => rw [createPath_of_present i s v hf, createPath_of_present i s v hf]

/-- C10: the path-creation step of `handler` is idempotent. Run a second time for
the same index it changes nothing: the registry entry of `i` holds the same object
(same address, nodes and colour), nothing is allocated and the registry has as many
entries as after the first run. When `i` already has an entry the first run leaves
the state as it is; when it has none, the first run adds exactly one entry for `i`,
a path with no nodes and colour `(1, 0, 0)`. -/
theorem createPath_idempotent {R : Type} [Zero R] [One R] (s : State R) (i : Int) :
    createPath i (createPath i s) = createPath i s ∧
    find (createPath i (createPath i s)).pathMap i = find (createPath i s).pathMap i ∧
    (createPath i (createPath i s)).nextAddr = (createPath i s).nextAddr ∧
    (createPath i (createPath i s)).pathMap.length = (createPath i s).pathMap.length ∧
    (∀ v, find s.pathMap i = some v → createPath i s = s) ∧
    (find s.pathMap i = none →
      find (createPath i s).pathMap i
        = some (some ⟨s.nextAddr, "path" ++ toString i, [], ⟨1, 0, 0⟩⟩) ∧
      (createPath i s).pathMap.filter (fun e => decide (e.1 = i))
        = [(i, some ⟨s.nextAddr, "path" ++ toString i, [], ⟨1, 0, 0⟩⟩)] ∧
      (createPath i s).pathMap.length = s.pathMap.length + 1) := by
  refine ⟨createPath_twice i s, by rw [createPath_twice], by rw [createPath_twice],
    by rw [createPath_twice], fun v hv => createPath_of_present i s v hv, ?_⟩
  intro hf
  refine ⟨?_, ?_, ?_⟩
  · simp [createPath, hf, find_assign_same]
  · simp only [createPath, hf]
    exact filter_key_assign_fresh _ _ _ hf
  · simp only [createPath, hf]
    exact length_assign_fresh _ _ _ hf

/-- Witness of C10: on `oneMap` index 0 is present and index 3 is fresh. -/
theorem createPath_idempotent_witness :
    find oneMap.pathMap 0 = some (some path0) ∧
    createPath 0 oneMap = oneMap ∧
    find oneMap.pathMap 3 = none ∧
    find (createPath 3 oneMap).pathMap 3
      = some (some ⟨1, "path" ++ toString (3 : Int), [], ⟨1, 0, 0⟩⟩) ∧
    (createPath 3 oneMap).pathMap.length = 2 ∧
    createPath 3 (createPath 3 oneMap) = createPath 3 oneMap :=
  ⟨rfl, (createPath_idempotent oneMap 0).2.2.2.2.1 (some path0) rfl, rfl,
    ((createPath_idempotent oneMap 3).2.2.2.2.2 rfl).1,
    ((createPath_idempotent oneMap 3).2.2.2.2.2 rfl).2.2,
    (createPath_idempotent oneMap 3).1⟩

/-! ## Anchor cubes: worked histories -/

/-- C4, failing input: an `r` marker is placed on keyframe 0 with relative transform
`shift 0 1 0`, then a click cube on keyframe 1 with relative transform `shift 0 2 0`.
After loop closure the click cube is displayed at keyframe 0's pose composed with the
marker's relative transform, not at keyframe 1's pose `kfPose 1` composed with its
own. -/
theorem click_after_marker_wrong_keyframe :
    ∃ s : State Int,
      run [Event.frame (frameAt 5 1 (some 0)) 0 false true,
           Event.frame (frameAt 6 2 (some 1)) 0 true false,
           Event.loopClosure [] 0 kfPose] init = .ok s ∧
      s.K_cubes = [some 0, some 1] ∧
      s.T_K_cubes = [shift 0 1 0, shift 0 2 0] ∧
      s.cubes.map Cube.pose = [(kfPose 0).mul (shift 0 1 0)] ∧
      (kfPose 0).mul (shift 0 1 0) ≠ (kfPose 1).mul (shift 0 2 0) :=
  ⟨_, rfl, rfl, rfl, rfl, by decide⟩

/-- C9, failing input: an `r` marker is placed on keyframe 0, then a click cube on a
frame whose keyframe is null. Loop closure reads `K_cubes[0]`, the marker's
keyframe, for the click cube and moves it from `shift 6 0 0` to
`kfPose 0 * shift 0 1 0`. -/
theorem null_keyframe_cube_moved :
    ∃ s s1 : State Int,
      run [Event.frame (frameAt 5 1 (some 0)) 0 false true,
           Event.frame (frameAt 6 2 none) 0 true false] init = .ok s ∧
      s.K_cubes = [some 0, none] ∧
      s.cubes.map Cube.pose = [shift 6 0 0] ∧
      loopHandler [] 0 kfPose s = .ok s1 ∧
      s1.cubes.map Cube.pose = [(kfPose 0).mul (shift 0 1 0)] ∧
      (kfPose 0).mul (shift 0 1 0) ≠ shift 6 0 0 :=
  ⟨_, _, rfl, rfl, rfl, rfl, rfl, by decide⟩

/-- Remark on `mergeHandler`, which has no loop over `cubes`: a click cube is placed
on keyframe 0 at a camera pose that agrees with the keyframe pose `shift 0 0 10` and
the relative transform `shift 0 1 0`; map 1 then becomes active and is merged back
into map 0. With keyframe 0 meanwhile at `shift 0 0 30` the cube still has the pose
of its placement. -/
theorem cube_pose_stale_after_merge :
    (⟨shift 0 1 10, shift 0 1 0, some 0⟩ : MultiCameraFrame Int).T_WC3
      = (shift 0 0 10).mul (shift 0 1 0) ∧
    ∃ s : State Int,
      run [Event.frame ⟨shift 0 1 10, shift 0 1 0, some 0⟩ 0 true false,
           Event.frame (frameAt 7 0 none) 1 false false,
           Event.merge 1 0 [shift 1 2 3]] init = .ok s ∧
      s.K_cubes = [some 0] ∧
      s.T_K_cubes = [shift 0 1 0] ∧
      s.cubes.map Cube.pose = [shift 0 1 10] ∧
      (shift 0 0 30).mul (shift 0 1 0) ≠ shift 0 1 10 :=
  ⟨rfl, _, rfl, rfl, rfl, rfl, by decide⟩

/-! ## What the handlers do to the anchor vectors -/

theorem callPath_anchor {R : Type} (m : Path R → Path R) (key : Int) (s s1 : State R)
    (h : callPath m key s = .ok s1) : anchorPart s1 = anchorPart s := by
  unfold callPath at h
  split at h
  · cases h; rfl
  · cases h
  · cases h

theorem addNodes_anchor {R : Type} (key : Int) (traj : List (Matrix4d R)) (s s1 : State R)
    (h : addNodes key traj s = .ok s1) : anchorPart s1 = anchorPart s := by
  induction traj generalizing s with
  | nil => simp only [addNodes] at h; cases h; rfl
  | cons T rest ih =>
    simp only [addNodes] at h
    cases hc : callPath (Path.add_node T.translation) key s with
    | error e => rw [hc] at h; cases h
    | ok s2 =>
      rw [hc] at h
      rw [ih s2 h, callPath_anchor _ _ _ _ hc]

theorem refill_anchor {R : Type} (key : Int) (traj : List (Matrix4d R)) (s s1 : State R)
    (h : refill key traj s = .ok s1) : anchorPart s1 = anchorPart s := by
  simp only [refill] at h
  cases hc : callPath Path.clear key s with
  | error e => rw [hc] at h; cases h
  | ok s2 =>
    rw [hc] at h
    rw [addNodes_anchor _ _ _ _ h, callPath_anchor _ _ _ _ hc]

theorem mergeHandler_anchor {R : Type} (d c : Int) (traj : List (Matrix4d R))
    (s s1 : State R) (h : mergeHandler d c traj s = .ok s1) :
    anchorPart s1 = anchorPart s := by
  simp only [mergeHandler] at h
  cases hc : callPath Path.clear d s with
  | error e => rw [hc] at h; cases h
  | ok s2 =>
    rw [hc] at h
    rw [refill_anchor _ _ _ _ h, callPath_anchor _ _ _ _ hc]

theorem createPath_anchor {R : Type} [Zero R] [One R] (i : Int) (s : State R) :
    anchorPart (createPath i s) = anchorPart s := by
  unfold createPath
  split <;> rfl

theorem switchActive_anchor {R : Type} (i : Int) (s s1 : State R)
    (h : switchActive i s = .ok s1) : anchorPart s1 = anchorPart s := by
  unfold switchActive at h
  split at h
  · simp only [hideInactiveMaps, if_true] at h
    cases hc : callPath Path.clear s.lastMapIndex_path s with
    | error e => rw [hc] at h; cases h
    | ok s2 =>
      rw [hc] at h
      cases h
      have := callPath_anchor _ _ _ _ hc
      simpa [anchorPart] using this
  · cases h; rfl

theorem handler_anchor {R : Type} [Zero R] [One R] (f : MultiCameraFrame R) (i : Int)
    (c r : Bool) (s s1 : State R) (h : handler f i c r s = .ok s1) :
    anchorPart s1 = anchorPart (place f c r s) := by
  simp only [handler] at h
  cases hs : switchActive i (createPath i s) with
  | error e => rw [hs] at h; cases h
  | ok s2 =>
    rw [hs] at h
    simp only at h
    cases hc : callPath (Path.add_node f.T_WC3.translation) i s2 with
    | error e => rw [hc] at h; cases h
    | ok s3 =>
      rw [hc] at h
      cases h
      apply anchorPart_place
      rw [callPath_anchor _ _ _ _ hc, switchActive_anchor _ _ _ hs, createPath_anchor]

theorem refreshCubes_anchor {R : Type} [Add R] [Mul R] (T_WS : Nat → Matrix4d R)
    (n i : Nat) (s s1 : State R) (h : refreshCubes T_WS n i s = .ok s1) :
    s1.cubes.length = s.cubes.length ∧ s1.errorCubes = s.errorCubes ∧
    s1.T_K_cubes = s.T_K_cubes ∧ s1.K_cubes = s.K_cubes := by
  induction n generalizing i s with
  | zero => simp only [refreshCubes] at h; cases h; exact ⟨rfl, rfl, rfl, rfl⟩
  | succ n ih =>
    simp only [refreshCubes] at h
    split at h
    · cases h
    · exact ih _ _ h
    · split at h
      · cases h
      · have := ih _ _ h
        simpa using this

theorem loopHandler_anchor {R : Type} [Add R] [Mul R] (traj : List (Matrix4d R))
    (idx : Int) (T_WS : Nat → Matrix4d R) (s s1 : State R)
    (h : loopHandler traj idx T_WS s = .ok s1) :
    s1.cubes.length = s.cubes.length ∧ s1.errorCubes = s.errorCubes ∧
    s1.T_K_cubes = s.T_K_cubes ∧ s1.K_cubes = s.K_cubes := by
  simp only [loopHandler] at h
  cases hc : refill idx traj s with
  | error e => rw [hc] at h; cases h
  | ok s2 =>
    rw [hc] at h
    have h2 := refill_anchor _ _ _ _ hc
    simp only [anchorPart, Prod.mk.injEq] at h2
    obtain ⟨a1, a2, a3, a4⟩ := h2
    obtain ⟨b1, b2, b3, b4⟩ := refreshCubes_anchor _ _ _ _ _ h
    exact ⟨by rw [b1, a1], by rw [b2, a2], by rw [b3, a3], by rw [b4, a4]⟩

theorem place_anchor {R : Type} (f : MultiCameraFrame R) (c r : Bool) (s : State R) :
    (place f c r s).cubes = s.cubes ++
      (if c then [⟨"CubeNum" ++ toString s.cubes.length, f.T_WC3⟩] else []) ∧
    (place f c r s).errorCubes = s.errorCubes ++
      (if r then [⟨"MarkerCube" ++ toString s.errorCubes.length, f.T_WC3⟩] else []) ∧
    (place f c r s).T_K_cubes = s.T_K_cubes ++
      ((if c then [f.T_KS_] else []) ++ (if r then [f.T_KS_] else [])) ∧
    (place f c r s).K_cubes = s.K_cubes ++
      ((if c then [f.keyframe_] else []) ++ (if r then [f.keyframe_] else [])) := by
  cases c <;> cases r <;> simp [place, placeCube, placeMarkerCube, Cube.set_transform]

/-- The anchor vectors only grow: one event appends equally many entries to
`K_cubes` and `T_K_cubes` as it adds cubes and marker cubes. -/
theorem step_anchor {R : Type} [Zero R] [One R] [Add R] [Mul R] (s s1 : State R)
    (e : Event R) (h : step s e = .ok s1) :
    ∃ (lK : List (Option Nat)) (lT : List (Matrix4d R)),
      s1.K_cubes = s.K_cubes ++ lK ∧ s1.T_K_cubes = s.T_K_cubes ++ lT ∧
      lK.length = lT.length ∧
      s1.cubes.length + s1.errorCubes.length
        = s.cubes.length + s.errorCubes.length + lK.length ∧
      s.cubes.length ≤ s1.cubes.length ∧ s.errorCubes.length ≤ s1.errorCubes.length := by
  cases e with
  | frame f i c r =>
    have ha := handler_anchor f i c r s s1 h
    obtain ⟨p1, p2, p3, p4⟩ := place_anchor f c r s
    simp only [anchorPart, Prod.mk.injEq] at ha
    obtain ⟨a1, a2, a3, a4⟩ := ha
    refine ⟨_, _, a4.trans p4, a3.trans p3, ?_, ?_, ?_, ?_⟩
    · cases c <;> cases r <;> simp
    · rw [a1, a2, p1, p2]; cases c <;> cases r <;> simp <;> omega
    · rw [a1, p1]; simp
    · rw [a2, p2]; simp
  | loopClosure traj idx T_WS =>
    obtain ⟨b1, b2, b3, b4⟩ := loopHandler_anchor traj idx T_WS s s1 h
    exact ⟨[], [], by simp [b4], by simp [b3], rfl, by simp [b1, b2], by omega,
      by rw [b2]⟩
  | merge d c traj =>
    have ha := mergeHandler_anchor d c traj s s1 h
    simp only [anchorPart, Prod.mk.injEq] at ha
    obtain ⟨a1, a2, a3, a4⟩ := ha
    exact ⟨[], [], by simp [a4], by simp [a3], rfl, by simp [a1, a2], by rw [a1],
      by rw [a2]⟩

theorem run_anchor {R : Type} [Zero R] [One R] [Add R] [Mul R] (es : List (Event R))
    (s s1 : State R) (h : run es s = .ok s1) :
    ∃ (lK : List (Option Nat)) (lT : List (Matrix4d R)),
      s1.K_cubes = s.K_cubes ++ lK ∧ s1.T_K_cubes = s.T_K_cubes ++ lT ∧
      lK.length = lT.length ∧
      s1.cubes.length + s1.errorCubes.length
        = s.cubes.length + s.errorCubes.length + lK.length ∧
      s.cubes.length ≤ s1.cubes.length ∧ s.errorCubes.length ≤ s1.errorCubes.length := by
  induction es generalizing s with
  | nil =>
    simp only [run] at h; cases h
    exact ⟨[], [], by simp, by simp, rfl, by simp, le_refl _, le_refl _⟩
  | cons e es ih =>
    simp only [run] at h
    cases hs : step s e with
    | error f => rw [hs] at h; cases h
    | ok s2 =>
      rw [hs] at h
      obtain ⟨lK, lT, a1, a2, a3, a4, a5, a6⟩ := step_anchor s s2 e hs
      obtain ⟨mK, mT, b1, b2, b3, b4, b5, b6⟩ := ih s2 h
      refine ⟨lK ++ mK, lT ++ mT, by rw [b1, a1, List.append_assoc],
        by rw [b2, a2, List.append_assoc], by simp [a3, b3], ?_, by omega, by omega⟩
      rw [b4, a4, List.length_append]; omega

/-- In every state reached from `init` the two shared vectors have one entry per
cube and marker cube, so the reads `K_cubes[i]` and `T_K_cubes[i]` of `loopHandler`
are in range. -/
theorem run_init_lengths {R : Type} [Zero R] [One R] [Add R] [Mul R] (es : List (Event R))
    (s : State R) (h : run es init = .ok s) :
    s.K_cubes.length = s.cubes.length + s.errorCubes.length ∧
    s.T_K_cubes.length = s.K_cubes.length := by
  obtain ⟨lK, lT, a1, a2, a3, a4, _, _⟩ := run_anchor es init s h
  simp only [init, List.nil_append, List.length_nil, Nat.zero_add] at a1 a2 a4
  rw [a1, a2, a4, a3]
  exact ⟨rfl, rfl⟩

theorem run_append {R : Type} [Zero R] [One R] [Add R] [Mul R] (es1 es2 : List (Event R))
    (s s2 : State R) (h : run (es1 ++ es2) s = .ok s2) :
    ∃ s1, run es1 s = .ok s1 ∧ run es2 s1 = .ok s2 := by
  induction es1 generalizing s with
  | nil => exact ⟨s, rfl, h⟩
  | cons e es ih =>
    simp only [List.cons_append, run] at h
    cases hs : step s e with
    | error f => rw [hs] at h; cases h
    | ok s3 =>
      rw [hs] at h
      obtain ⟨s1, h1, h2⟩ := ih s3 h
      exact ⟨s1, by simp only [run, hs]; exact h1, h2⟩

/-- Without `r` presses the shared vectors are exactly the log of the clicks. -/
theorem run_noMarker_log {R : Type} [Zero R] [One R] [Add R] [Mul R] (es : List (Event R))
    (s0 s : State R) (L0 : List (Option Nat × Matrix4d R))
    (hm : ∀ e ∈ es, e.noMarker = true) (h : run es s0 = .ok s)
    (hK0 : s0.K_cubes = L0.map Prod.fst) (hT0 : s0.T_K_cubes = L0.map Prod.snd)
    (hc0 : s0.cubes.length = L0.length) :
    s.K_cubes = (L0 ++ clickLog es).map Prod.fst ∧
    s.T_K_cubes = (L0 ++ clickLog es).map Prod.snd ∧
    s.cubes.length = (L0 ++ clickLog es).length := by
  induction es generalizing s0 L0 with
  | nil =>
    simp only [run] at h; cases h
    simp [clickLog, hK0, hT0, hc0]
  | cons e es ih =>
    simp only [run] at h
    have hm' : ∀ e' ∈ es, e'.noMarker = true := fun e' he' => hm e' (List.mem_cons_of_mem _ he')
    have he := hm e (List.mem_cons_self _ _)
    cases hs : step s0 e with
    | error f => rw [hs] at h; cases h
    | ok s2 =>
      rw [hs] at h
      cases e with
      | frame f i c r =>
        have hr : r = false := by simpa [Event.noMarker] using he
        subst hr
        have ha := handler_anchor f i c false s0 s2 hs
        obtain ⟨p1, _, p3, p4⟩ := place_anchor f c false s0
        simp only [anchorPart, Prod.mk.injEq] at ha
        obtain ⟨a1, _, a3, a4⟩ := ha
        cases c with
        | true =>
          have := ih s2 (L0 ++ [(f.keyframe_, f.T_KS_)]) hm' h
            (by rw [a4, p4, hK0]; simp) (by rw [a3, p3, hT0]; simp)
            (by rw [a1, p1]; simp [hc0])
          simpa [clickLog] using this
        | false =>
          have := ih s2 L0 hm' h (by rw [a4, p4, hK0]; simp) (by rw [a3, p3, hT0]; simp)
            (by rw [a1, p1]; simp [hc0])
          simpa [clickLog] using this
      | loopClosure traj idx T_WS =>
        obtain ⟨b1, _, b3, b4⟩ := loopHandler_anchor traj idx T_WS s0 s2 hs
        have := ih s2 L0 hm' h (by rw [b4, hK0]) (by rw [b3, hT0]) (by rw [b1, hc0])
        simpa [clickLog] using this
      | merge d c traj =>
        have ha := mergeHandler_anchor d c traj s0 s2 hs
        simp only [anchorPart, Prod.mk.injEq] at ha
        obtain ⟨a1, _, a3, a4⟩ := ha
        have := ih s2 L0 hm' h (by rw [a4, hK0]) (by rw [a3, hT0]) (by rw [a1, hc0])
        simpa [clickLog] using this

/-! ## The null-keyframe guard, index by index -/

/-- What `loopHandler` does to `cubes[j]` in terms of the entries it reads: with the
active index registered and the reads in range it completes, keeps the number of
cubes and every marker cube, leaves `cubes[j]` as it was when `K_cubes[j]` is null
and moves it to `T_WS k * T_K_cubes[j]` when `K_cubes[j]` is keyframe `k`. -/
theorem loopHandler_guard {R : Type} [Add R] [Mul R] (traj : List (Matrix4d R))
    (idx : Int) (T_WS : Nat → Matrix4d R) (s : State R) (p : Path R)
    (hp : find s.pathMap idx = some (some p))
    (hK : s.cubes.length ≤ s.K_cubes.length) (hT : s.cubes.length ≤ s.T_K_cubes.length) :
    ∃ s1 : State R,
      loopHandler traj idx T_WS s = .ok s1 ∧
      s1.cubes.length = s.cubes.length ∧ s1.errorCubes = s.errorCubes ∧
      (∀ j : Nat, j < s.cubes.length → s.K_cubes[j]? = some none →
        s1.cubes[j]? = s.cubes[j]?) ∧
      (∀ (j k : Nat) (T : Matrix4d R), j < s.cubes.length →
        s.K_cubes[j]? = some (some k) → s.T_K_cubes[j]? = some T →
        s1.cubes[j]? = (s.cubes[j]?).map (Cube.set_transform ((T_WS k).mul T))) := by
  obtain ⟨cs, hloop, hlen, hget⟩ := loopHandler_ok traj idx T_WS s p hp hK hT
  refine ⟨_, hloop, hlen, rfl, ?_, ?_⟩
  · intro j hj hKj
    show cs[j]? = _
    rw [hget j, if_pos hj]
    simp [refreshedCube, hKj]
  · intro j k T hj hKj hTj
    show cs[j]? = _
    rw [hget j, if_pos hj]
    simp [refreshedCube, hKj, hTj]

/-! ## Registry invariants of reachable states -/

theorem callPath_inv {R : Type} (m : Path R → Path R) (key : Int) (s s1 : State R)
    (h : callPath m key s = .ok s1) :
    ∃ p, find s.pathMap key = some (some p) ∧
      s1 = { s with pathMap := assign s.pathMap key (some (m p)) } := by
  unfold callPath at h
  split at h
  · next p hp => cases h; exact ⟨p, hp, rfl⟩
  · cases h
  · cases h

theorem find_assign_some_ne_null {R : Type} (M : List (Int × Option (Path R))) (key j : Int)
    (x : Path R) (h : find M j ≠ some none) : find (assign M key (some x)) j ≠ some none := by
  by_cases hj : key = j
  · subst hj; rw [find_assign_same]; simp
  · rw [find_assign_ne _ _ _ _ hj]; exact h

theorem find_assign_some_has {R : Type} (M : List (Int × Option (Path R))) (key j : Int)
    (x : Path R) (h : ∃ q, find M j = some (some q)) :
    ∃ q, find (assign M key (some x)) j = some (some q) := by
  by_cases hj : key = j
  · subst hj; exact ⟨x, find_assign_same _ _ _⟩
  · rw [find_assign_ne _ _ _ _ hj]; exact h

/-- A completed call through an entry keeps the registry free of null entries,
keeps every path registered, and leaves `lastMapIndex_path` alone. -/
theorem callPath_pres {R : Type} (m : Path R → Path R) (key : Int) (s s1 : State R)
    (h : callPath m key s = .ok s1) :
    ((∀ j, find s.pathMap j ≠ some none) → ∀ j, find s1.pathMap j ≠ some none) ∧
    (∀ j, (∃ q, find s.pathMap j = some (some q)) → ∃ q, find s1.pathMap j = some (some q)) ∧
    (∃ q, find s1.pathMap key = some (some q)) ∧
    s1.lastMapIndex_path = s.lastMapIndex_path := by
  obtain ⟨p, _, rfl⟩ := callPath_inv m key s s1 h
  exact ⟨fun hn j => find_assign_some_ne_null _ _ _ _ (hn j),
    fun j hj => find_assign_some_has _ _ _ _ hj, ⟨_, find_assign_same _ _ _⟩, rfl⟩

theorem addNodes_pres {R : Type} (key : Int) (traj : List (Matrix4d R)) (s s1 : State R)
    (h : addNodes key traj s = .ok s1) :
    ((∀ j, find s.pathMap j ≠ some none) → ∀ j, find s1.pathMap j ≠ some none) ∧
    (∀ j, (∃ q, find s.pathMap j = some (some q)) → ∃ q, find s1.pathMap j = some (some q)) ∧
    s1.lastMapIndex_path = s.lastMapIndex_path := by
  induction traj generalizing s with
  | nil => simp only [addNodes] at h; cases h; exact ⟨fun hn => hn, fun _ hj => hj, rfl⟩
  | cons T rest ih =>
    simp only [addNodes] at h
    cases hc : callPath (Path.add_node T.translation) key s with
    | error e => rw [hc] at h; cases h
    | ok s2 =>
      rw [hc] at h
      obtain ⟨a1, a2, _, a4⟩ := callPath_pres _ _ _ _ hc
      obtain ⟨b1, b2, b3⟩ := ih s2 h
      exact ⟨fun hn => b1 (a1 hn), fun j hj => b2 j (a2 j hj), b3.trans a4⟩

theorem refill_pres {R : Type} (key : Int) (traj : List (Matrix4d R)) (s s1 : State R)
    (h : refill key traj s = .ok s1) :
    ((∀ j, find s.pathMap j ≠ some none) → ∀ j, find s1.pathMap j ≠ some none) ∧
    (∀ j, (∃ q, find s.pathMap j = some (some q)) → ∃ q, find s1.pathMap j = some (some q)) ∧
    s1.lastMapIndex_path = s.lastMapIndex_path ∧ s.pathMap ≠ [] := by
  simp only [refill] at h
  cases hc : callPath Path.clear key s with
  | error e => rw [hc] at h; cases h
  | ok s2 =>
    rw [hc] at h
    obtain ⟨a1, a2, _, a4⟩ := callPath_pres _ _ _ _ hc
    obtain ⟨b1, b2, b3⟩ := addNodes_pres _ _ _ _ h
    obtain ⟨p, hp, _⟩ := callPath_inv _ _ _ _ hc
    refine ⟨fun hn => b1 (a1 hn), fun j hj => b2 j (a2 j hj), b3.trans a4, ?_⟩
    intro hnil
    rw [hnil] at hp
    simp [find] at hp

theorem refreshCubes_registry {R : Type} [Add R] [Mul R] (T_WS : Nat → Matrix4d R)
    (n i : Nat) (s s1 : State R) (h : refreshCubes T_WS n i s = .ok s1) :
    s1.pathMap = s.pathMap ∧ s1.lastMapIndex_path = s.lastMapIndex_path := by
  induction n generalizing i s with
  | zero => simp only [refreshCubes] at h; cases h; exact ⟨rfl, rfl⟩
  | succ n ih =>
    simp only [refreshCubes] at h
    split at h
    · cases h
    · exact ih _ _ h
    · split at h
      · cases h
      · simpa using ih _ _ h

/-- One completed event keeps the registry invariant: no entry is a null pointer,
and `lastMapIndex_path` has a path unless no frame has been handled yet (the
registry is still empty and `lastMapIndex_path` is still 0). -/
theorem step_registry {R : Type} [Zero R] [One R] [Add R] [Mul R] (s s1 : State R)
    (e : Event R) (h : step s e = .ok s1)
    (hn : ∀ j, find s.pathMap j ≠ some none)
    (hl : (∃ q, find s.pathMap s.lastMapIndex_path = some (some q)) ∨
      (s.pathMap = [] ∧ s.lastMapIndex_path = 0)) :
    (∀ j, find s1.pathMap j ≠ some none) ∧
    ((∃ q, find s1.pathMap s1.lastMapIndex_path = some (some q)) ∨
      (s1.pathMap = [] ∧ s1.lastMapIndex_path = 0)) := by
  cases e with
  | frame f i c r =>
    simp only [step, handler] at h
    cases hs : switchActive i (createPath i s) with
    | error e => rw [hs] at h; cases h
    | ok s2 =>
      rw [hs] at h
      simp only at h
      cases hc : callPath (Path.add_node f.T_WC3.translation) i s2 with
      | error e => rw [hc] at h; cases h
      | ok s3 =>
        rw [hc] at h
        cases h
        have hn1 : ∀ j, find (createPath i s).pathMap j ≠ some none := by
          intro j
          unfold createPath
          split
          · exact find_assign_some_ne_null _ _ _ _ (hn j)
          · exact hn j
        have hn2 : (∀ j, find s2.pathMap j ≠ some none) ∧ s2.lastMapIndex_path = i := by
          unfold switchActive at hs
          split at hs
          · simp only [hideInactiveMaps, if_true] at hs
            cases hcl : callPath Path.clear (createPath i s).lastMapIndex_path
                (createPath i s) with
            | error e => rw [hcl] at hs; cases hs
            | ok s4 =>
              rw [hcl] at hs
              cases hs
              exact ⟨(callPath_pres _ _ _ _ hcl).1 hn1, rfl⟩
          · next hne =>
            cases hs
            exact ⟨hn1, by simpa using hne⟩
        obtain ⟨a1, _, a3, a4⟩ := callPath_pres _ _ _ _ hc
        obtain ⟨q1, q2, _⟩ := place_pathMap f c r s3
        refine ⟨fun j => by rw [q1]; exact a1 hn2.1 j, Or.inl ?_⟩
        rw [q1, q2, a4, hn2.2]
        exact a3
  | loopClosure traj idx T_WS =>
    simp only [step, loopHandler] at h
    cases hc : refill idx traj s with
    | error e => rw [hc] at h; cases h
    | ok s2 =>
      rw [hc] at h
      obtain ⟨a1, a2, a3, a4⟩ := refill_pres _ _ _ _ hc
      obtain ⟨b1, b2⟩ := refreshCubes_registry _ _ _ _ _ h
      refine ⟨fun j => by rw [b1]; exact a1 hn j, Or.inl ?_⟩
      rw [b1, b2, a3]
      rcases hl with hl | hl
      · exact a2 _ hl
      · exact absurd hl.1 a4
  | merge d c traj =>
    simp only [step, mergeHandler] at h
    cases hc : callPath Path.clear d s with
    | error e => rw [hc] at h; cases h
    | ok s2 =>
      rw [hc] at h
      obtain ⟨a1, a2, _, a4⟩ := callPath_pres _ _ _ _ hc
      obtain ⟨b1, b2, b3, _⟩ := refill_pres _ _ _ _ h
      obtain ⟨p, hp, _⟩ := callPath_inv _ _ _ _ hc
      refine ⟨fun j => b1 (a1 hn) j, Or.inl ?_⟩
      rw [b3, a4]
      rcases hl with hl | hl
      · exact b2 _ (a2 _ hl)
      · rw [hl.1] at hp; simp [find] at hp

/-- Every state reached from `init` has no null entry in the registry, and its
`lastMapIndex_path` has a path unless the registry is still empty. -/
theorem run_registry {R : Type} [Zero R] [One R] [Add R] [Mul R] (es : List (Event R))
    (s0 s : State R) (h : run es s0 = .ok s)
    (hn : ∀ j, find s0.pathMap j ≠ some none)
    (hl : (∃ q, find s0.pathMap s0.lastMapIndex_path = some (some q)) ∨
      (s0.pathMap = [] ∧ s0.lastMapIndex_path = 0)) :
    (∀ j, find s.pathMap j ≠ some none) ∧
    ((∃ q, find s.pathMap s.lastMapIndex_path = some (some q)) ∨
      (s.pathMap = [] ∧ s.lastMapIndex_path = 0)) := by
  induction es generalizing s0 with
  | nil => simp only [run] at h; cases h; exact ⟨hn, hl⟩
  | cons e es ih =>
    simp only [run] at h
    cases hs : step s0 e with
    | error f => rw [hs] at h; cases h
    | ok s2 =>
      rw [hs] at h
      obtain ⟨a1, a2⟩ := step_registry s0 s2 e hs hn hl
      exact ih s2 h a1 a2

/-- In a state reached from `init`, a frame for any index `i` is handled without a
fault and ends the path of `i` with the camera position, provided a frame has been
handled before (the registry is not empty) or `i = 0`. -/
theorem handler_on_reached {R : Type} [Zero R] [One R] [Add R] [Mul R] (es : List (Event R))
    (s : State R) (h : run es init = .ok s) (f : MultiCameraFrame R) (i : Int) (c r : Bool)
    (hne : s.pathMap ≠ [] ∨ i = 0) :
    ∃ (s1 : State R) (p1 : Path R),
      handler f i c r s = .ok s1 ∧ find s1.pathMap i = some (some p1) ∧
      p1.nodes = (nodesOf s i).getD [] ++ [f.T_WC3.translation] := by
  obtain ⟨hn, hl⟩ := run_registry es init s h (fun j => by simp [init, find])
    (Or.inr ⟨rfl, rfl⟩)
  have h2 : s.lastMapIndex_path = i ∨
      ∃ q, find s.pathMap s.lastMapIndex_path = some (some q) := by
    rcases hl with hl | hl
    · exact Or.inr hl
    · rcases hne with hne | hne
      · exact absurd hl.1 hne
      · exact Or.inl (by rw [hl.2, hne])
  obtain ⟨s1, p1, hrun, _, hp1, hn1, _⟩ := handler_spec f i c r s (hn i) h2
  exact ⟨s1, p1, hrun, hp1, hn1⟩

/-- Append monotonicity in a state reached from `init`: frames that all report `i`
leave the path of `i` with its earlier nodes followed by their camera positions in
arrival order, provided a frame has been handled before or `i = 0`. -/
theorem framesAt_on_reached {R : Type} [Zero R] [One R] [Add R] [Mul R]
    (es : List (Event R)) (s : State R) (h : run es init = .ok s) (i : Int)
    (fs : List (MultiCameraFrame R × Bool × Bool)) (hne : s.pathMap ≠ [] ∨ i = 0) :
    ∃ s1 : State R,
      run (framesAt i fs) s = .ok s1 ∧
      (nodesOf s1 i).getD [] =
        (nodesOf s i).getD [] ++ fs.map (fun x => x.1.T_WC3.translation) ∧
      (fs ≠ [] → nodesOf s1 i =
        some ((nodesOf s i).getD [] ++ fs.map (fun x => x.1.T_WC3.translation))) := by
  obtain ⟨hn, hl⟩ := run_registry es init s h (fun j => by simp [init, find])
    (Or.inr ⟨rfl, rfl⟩)
  have h2 : s.lastMapIndex_path = i ∨
      ∃ q, find s.pathMap s.lastMapIndex_path = some (some q) := by
    rcases hl with hl | hl
    · exact Or.inr hl
    · rcases hne with hne | hne
      · exact absurd hl.1 hne
      · exact Or.inl (by rw [hl.2, hne])
  obtain ⟨s1, hrun, _, hnodes, hl1, _, _⟩ := framesAt_spec i fs s (hn i) h2
  refine ⟨s1, hrun, hnodes, ?_⟩
  intro hfs
  obtain ⟨_, p1, hp1⟩ := hl1 hfs
  rw [← hnodes, nodesOf_eq_of_find s1 i p1 hp1]
  rfl

/-! ## The effect of one frame on the whole registry -/

/-- C12: in a state where the previously active index `a` has a path `pa` (and the
entry of `b`, if any, is not a null pointer, as in every reachable state), a frame
reporting the active index `b` is handled without fault and `lastMapIndex_path`
becomes `b`. The path of `b` is its earlier node sequence (none when the path is
created by this frame) followed by the frame's camera position, the object being
otherwise the one registered before. If `b` differs from `a` the path of `a` is the
same object cleared to length 0; if `b` equals `a` nothing is cleared and the path
of `a` only gains the node. Every entry other than those of `a` and `b` is
unchanged. -/
theorem handler_registry_effect {R : Type} [Zero R] [One R] (s : State R) (a b : Int)
    (pa : Path R) (f : MultiCameraFrame R) (c r : Bool)
    (ha : s.lastMapIndex_path = a) (hpa : find s.pathMap a = some (some pa))
    (hb : find s.pathMap b ≠ some none) :
    ∃ (s1 : State R) (pb : Path R),
      handler f b c r s = .ok s1 ∧
      s1.lastMapIndex_path = b ∧
      find s1.pathMap b = some (some pb) ∧
      pb.nodes = (nodesOf s b).getD [] ++ [f.T_WC3.translation] ∧
      (∀ q, find s.pathMap b = some (some q) →
        pb = { q with nodes := q.nodes ++ [f.T_WC3.translation] }) ∧
      (b ≠ a →
        find s1.pathMap a = some (some { pa with nodes := [] }) ∧
        nodesOf s1 a = some []) ∧
      (b = a →
        nodesOf s1 a = some (pa.nodes ++ [f.T_WC3.translation])) ∧
      (∀ j, j ≠ a → j ≠ b → find s1.pathMap j = find s.pathMap j) := by
  subst ha
  obtain ⟨s1, pb, hrun, hlast, hpb, hnodes, hsame, hclear, hother, _⟩ :=
    handler_spec f b c r s hb (Or.inr ⟨pa, hpa⟩)
  refine ⟨s1, pb, hrun, hlast, hpb, hnodes, ?_, ?_, ?_, ?_⟩
  · intro q hq
    rw [hsame q hq]
    rfl
  · intro hne
    have h := hclear (Ne.symm hne) pa hpa
    exact ⟨h, by simp [nodesOf, h, Path.clear]⟩
  · intro heq
    subst heq
    rw [nodesOf_eq_of_find s1 _ pb hpb, hsame pa hpa]
    rfl
  · intro j hja hjb
    exact hother j hjb hja

/-- Witness of C12 on `twoMaps` (map 1 active): a frame for map 0 clears the path of
map 1 and appends to the path of map 0. -/
theorem handler_registry_effect_witness :
    twoMaps.lastMapIndex_path = 1 ∧
    find twoMaps.pathMap 1 = some (some path1) ∧
    find twoMaps.pathMap 0 ≠ some none ∧
    ∃ (s1 : State Int) (pb : Path Int),
      handler (frameAt 7 0 none) 0 false false twoMaps = .ok s1 ∧
      s1.lastMapIndex_path = 0 ∧
      find s1.pathMap 0 = some (some pb) ∧
      pb.nodes = (nodesOf twoMaps 0).getD [] ++ [(frameAt 7 0 none).T_WC3.translation] ∧
      (∀ q, find twoMaps.pathMap 0 = some (some q) →
        pb = { q with nodes := q.nodes ++ [(frameAt 7 0 none).T_WC3.translation] }) ∧
      ((0 : Int) ≠ 1 →
        find s1.pathMap 1 = some (some { path1 with nodes := [] }) ∧
        nodesOf s1 1 = some []) ∧
      ((0 : Int) = 1 →
        nodesOf s1 1 = some (path1.nodes ++ [(frameAt 7 0 none).T_WC3.translation])) ∧
      (∀ j : Int, j ≠ 1 → j ≠ 0 → find s1.pathMap j = find twoMaps.pathMap j) :=
  ⟨rfl, rfl, by decide,
    handler_registry_effect twoMaps 1 0 path1 (frameAt 7 0 none) false false
      rfl rfl (by decide)⟩

/-! ## Anchor bookkeeping -/

theorem callPath_error {R : Type} (m : Path R → Path R) (key : Int) (s : State R)
    (e : Fault) (h : callPath m key s = .error e) : e = .nullDeref := by
  unfold callPath at h
  split at h
  · cases h
  · cases h; rfl
  · cases h; rfl

theorem addNodes_error {R : Type} (key : Int) (traj : List (Matrix4d R)) (s : State R)
    (e : Fault) (h : addNodes key traj s = .error e) : e = .nullDeref := by
  induction traj generalizing s with
  | nil => simp only [addNodes] at h; cases h
  | cons T rest ih =>
    simp only [addNodes] at h
    cases hc : callPath (Path.add_node T.translation) key s with
    | error e1 =>
      rw [hc] at h
      cases h
      exact callPath_error _ _ _ _ hc
    | ok s2 =>
      rw [hc] at h
      exact ih s2 h

theorem refill_error {R : Type} (key : Int) (traj : List (Matrix4d R)) (s : State R)
    (e : Fault) (h : refill key traj s = .error e) : e = .nullDeref := by
  simp only [refill] at h
  cases hc : callPath Path.clear key s with
  | error e1 =>
    rw [hc] at h
    cases h
    exact callPath_error _ _ _ _ hc
  | ok s2 =>
    rw [hc] at h
    exact addNodes_error _ _ _ _ h

/-- With one entry of `K_cubes` and of `T_K_cubes` per cube, `loopHandler` never
indexes a vector out of range. -/
theorem loopHandler_in_range {R : Type} [Add R] [Mul R] (traj : List (Matrix4d R))
    (idx : Int) (T_WS : Nat → Matrix4d R) (s : State R)
    (hK : s.cubes.length ≤ s.K_cubes.length) (hT : s.cubes.length ≤ s.T_K_cubes.length) :
    loopHandler traj idx T_WS s ≠ .error .outOfRange := by
  intro h
  simp only [loopHandler] at h
  cases hc : refill idx traj s with
  | error e =>
    rw [hc] at h
    cases h
    have := refill_error _ _ _ _ hc
    cases this
  | ok s2 =>
    rw [hc] at h
    simp only at h
    have ha := refill_anchor _ _ _ _ hc
    simp only [anchorPart, Prod.mk.injEq] at ha
    obtain ⟨a1, _, a3, a4⟩ := ha
    obtain ⟨cs, hrun, _, _⟩ := refreshCubes_ok T_WS s2.cubes.length 0 s2
      (by rw [a1, a4]; simpa using hK) (by rw [a1, a3]; simpa using hT)
    rw [hrun] at h
    cases h

/-- C13: in every state reached from `init` through frame, loop-closure and merge
events, `K_cubes` and `T_K_cubes` have the same length, which is the number of click
cubes plus the number of marker cubes; hence every index below `cubes.size()` is in
range in both vectors and `loopHandler` never reads them out of range; and no
completed event shortens `cubes`, `errorCubes`, `T_K_cubes` or `K_cubes`. -/
theorem anchor_bookkeeping {R : Type} [Zero R] [One R] [Add R] [Mul R]
    (es : List (Event R)) (s : State R) (h : run es init = .ok s) :
    s.K_cubes.length = s.T_K_cubes.length ∧
    s.K_cubes.length = s.cubes.length + s.errorCubes.length ∧
    (∀ i : Nat, i < s.cubes.length →
      i < s.K_cubes.length ∧ i < s.T_K_cubes.length ∧
      (∃ k, s.K_cubes[i]? = some k) ∧ (∃ T, s.T_K_cubes[i]? = some T)) ∧
    (∀ (traj : List (Matrix4d R)) (idx : Int) (T_WS : Nat → Matrix4d R),
      loopHandler traj idx T_WS s ≠ .error .outOfRange) ∧
    (∀ (e : Event R) (s1 : State R), step s e = .ok s1 →
      s.cubes.length ≤ s1.cubes.length ∧ s.errorCubes.length ≤ s1.errorCubes.length ∧
      s.T_K_cubes.length ≤ s1.T_K_cubes.length ∧ s.K_cubes.length ≤ s1.K_cubes.length) := by
  obtain ⟨hK, hT⟩ := run_init_lengths es s h
  refine ⟨hT.symm, hK, ?_, ?_, ?_⟩
  · intro i hi
    have h1 : i < s.K_cubes.length := by omega
    have h2 : i < s.T_K_cubes.length := by omega
    exact ⟨h1, h2, ⟨_, List.getElem?_eq_getElem h1⟩, ⟨_, List.getElem?_eq_getElem h2⟩⟩
  · intro traj idx T_WS
    exact loopHandler_in_range traj idx T_WS s (by omega) (by omega)
  · intro e s1 hs
    obtain ⟨lK, lT, a1, a2, _, _, a5, a6⟩ := step_anchor s s1 e hs
    refine ⟨a5, a6, ?_, ?_⟩
    · rw [a2]; simp
    · rw [a1]; simp

/-- Witness of C13: after a click and an `r` press there are one click cube, one
marker cube and two entries in each shared vector. -/
theorem anchor_bookkeeping_witness :
    run [clickOnKeyframe0, markerOnKeyframe1] init = .ok afterClickAndMarker ∧
    afterClickAndMarker.K_cubes.length = afterClickAndMarker.T_K_cubes.length ∧
    afterClickAndMarker.K_cubes.length
      = afterClickAndMarker.cubes.length + afterClickAndMarker.errorCubes.length ∧
    (∀ i : Nat, i < afterClickAndMarker.cubes.length →
      i < afterClickAndMarker.K_cubes.length ∧ i < afterClickAndMarker.T_K_cubes.length ∧
      (∃ k, afterClickAndMarker.K_cubes[i]? = some k) ∧
      (∃ T, afterClickAndMarker.T_K_cubes[i]? = some T)) ∧
    (∀ (traj : List (Matrix4d Int)) (idx : Int) (T_WS : Nat → Matrix4d Int),
      loopHandler traj idx T_WS afterClickAndMarker ≠ .error .outOfRange) ∧
    (∀ (e : Event Int) (s1 : State Int), step afterClickAndMarker e = .ok s1 →
      afterClickAndMarker.cubes.length ≤ s1.cubes.length ∧
      afterClickAndMarker.errorCubes.length ≤ s1.errorCubes.length ∧
      afterClickAndMarker.T_K_cubes.length ≤ s1.T_K_cubes.length ∧
      afterClickAndMarker.K_cubes.length ≤ s1.K_cubes.length) :=
  ⟨rfl, anchor_bookkeeping [clickOnKeyframe0, markerOnKeyframe1] afterClickAndMarker rfl⟩

/-! ## Cube poses: stored at placement, synchronised by loop closure -/

/-- The shared vectors start with the entries of the clicks handled up to and
including the first frame with an `r` press, and there are at least as many click
cubes. -/
theorem run_clicksUpToFirstMarker {R : Type} [Zero R] [One R] [Add R] [Mul R]
    (es : List (Event R)) (s0 s : State R) (L0 : List (Option Nat × Matrix4d R))
    (h : run es s0 = .ok s)
    (hK0 : s0.K_cubes = L0.map Prod.fst) (hT0 : s0.T_K_cubes = L0.map Prod.snd)
    (hc0 : s0.cubes.length = L0.length) :
    ∃ (rK : List (Option Nat)) (rT : List (Matrix4d R)),
      s.K_cubes = (L0 ++ clicksUpToFirstMarker es).map Prod.fst ++ rK ∧
      s.T_K_cubes = (L0 ++ clicksUpToFirstMarker es).map Prod.snd ++ rT ∧
      (L0 ++ clicksUpToFirstMarker es).length ≤ s.cubes.length := by
  induction es generalizing s0 L0 with
  | nil =>
    simp only [run] at h; cases h
    exact ⟨[], [], by simp [clicksUpToFirstMarker, hK0],
      by simp [clicksUpToFirstMarker, hT0], by simp [clicksUpToFirstMarker, hc0]⟩
  | cons e es ih =>
    simp only [run] at h
    cases hs : step s0 e with
    | error f => rw [hs] at h; cases h
    | ok s2 =>
      rw [hs] at h
      cases e with
      | frame f i c r =>
        have ha := handler_anchor f i c r s0 s2 hs
        obtain ⟨p1, _, p3, p4⟩ := place_anchor f c r s0
        simp only [anchorPart, Prod.mk.injEq] at ha
        obtain ⟨a1, _, a3, a4⟩ := ha
        cases r with
        | false =>
          cases c with
          | true =>
            have := ih s2 (L0 ++ [(f.keyframe_, f.T_KS_)]) h
              (by rw [a4, p4, hK0]; simp) (by rw [a3, p3, hT0]; simp)
              (by rw [a1, p1]; simp [hc0])
            simpa [clicksUpToFirstMarker] using this
          | false =>
            have := ih s2 L0 h (by rw [a4, p4, hK0]; simp) (by rw [a3, p3, hT0]; simp)
              (by rw [a1, p1]; simp [hc0])
            simpa [clicksUpToFirstMarker] using this
        | true =>
          obtain ⟨lK, lT, gK, gT, _, _, gc, _⟩ := run_anchor es s2 s h
          cases c with
          | true =>
            refine ⟨[f.keyframe_] ++ lK, [f.T_KS_] ++ lT, ?_, ?_, ?_⟩
            · rw [gK, a4, p4, hK0]; simp [clicksUpToFirstMarker]
            · rw [gT, a3, p3, hT0]; simp [clicksUpToFirstMarker]
            · have : s2.cubes.length = L0.length + 1 := by rw [a1, p1]; simp [hc0]
              simp [clicksUpToFirstMarker]; omega
          | false =>
            refine ⟨[f.keyframe_] ++ lK, [f.T_KS_] ++ lT, ?_, ?_, ?_⟩
            · rw [gK, a4, p4, hK0]; simp [clicksUpToFirstMarker]
            · rw [gT, a3, p3, hT0]; simp [clicksUpToFirstMarker]
            · have : s2.cubes.length = L0.length := by rw [a1, p1]; simp [hc0]
              simp [clicksUpToFirstMarker]; omega
      | loopClosure traj idx T_WS =>
        obtain ⟨b1, _, b3, b4⟩ := loopHandler_anchor traj idx T_WS s0 s2 hs
        have := ih s2 L0 h (by rw [b4, hK0]) (by rw [b3, hT0]) (by rw [b1, hc0])
        simpa [clicksUpToFirstMarker] using this
      | merge d c traj =>
        have ha := mergeHandler_anchor d c traj s0 s2 hs
        simp only [anchorPart, Prod.mk.injEq] at ha
        obtain ⟨a1, _, a3, a4⟩ := ha
        have := ih s2 L0 h (by rw [a4, hK0]) (by rw [a3, hT0]) (by rw [a1, hc0])
        simpa [clicksUpToFirstMarker] using this

/-- A completed `loopHandler` found a path registered under the active index. -/
theorem loopHandler_ok_has_path {R : Type} [Add R] [Mul R] (traj : List (Matrix4d R))
    (idx : Int) (T_WS : Nat → Matrix4d R) (s s1 : State R)
    (h : loopHandler traj idx T_WS s = .ok s1) :
    ∃ p, find s.pathMap idx = some (some p) := by
  simp only [loopHandler] at h
  cases hc : refill idx traj s with
  | error e => rw [hc] at h; cases h
  | ok s2 =>
    simp only [refill] at hc
    cases hcl : callPath Path.clear idx s with
    | error e => rw [hcl] at hc; cases hc
    | ok s3 =>
      obtain ⟨p, hp, _⟩ := callPath_inv _ _ _ _ hcl
      exact ⟨p, hp⟩

/-- C5, as stated, fails: a click cube is placed on keyframe 0 at a camera pose that
agrees with the keyframe pose `shift 0 0 10` and the relative transform
`shift 0 1 0`. The backend then corrects keyframe 0 to `shift 0 0 30`, which runs no
handler, and a further frame is handled: before and after that frame the cube is
displayed at the stored pose of its placement, not at the corrected keyframe pose
composed with the relative transform. -/
theorem cube_pose_stale_after_correction :
    (⟨shift 0 1 10, shift 0 1 0, some 0⟩ : MultiCameraFrame Int).T_WC3
      = (shift 0 0 10).mul (shift 0 1 0) ∧
    ∃ s s1 : State Int,
      run [Event.frame ⟨shift 0 1 10, shift 0 1 0, some 0⟩ 0 true false] init = .ok s ∧
      s.K_cubes = [some 0] ∧ s.T_K_cubes = [shift 0 1 0] ∧
      s.cubes.map Cube.pose = [shift 0 1 10] ∧
      handler (frameAt 7 0 none) 0 false false s = .ok s1 ∧
      s1.cubes.map Cube.pose = [shift 0 1 10] ∧
      (shift 0 0 30).mul (shift 0 1 0) ≠ shift 0 1 10 :=
  ⟨rfl, _, _, rfl, rfl, rfl, rfl, rfl, rfl, by decide⟩

/-- C5, amended: the displayed pose is stored in the cube. In a state reached from
`init` by the history `es`, a frame shows the click cube and the marker cube it
places at the camera pose of that frame. A `loopHandler` run completes whenever the
active index has a path, and immediately after it every click cube placed up to and
including the first frame with an `r` press is displayed at `T_WS k * T` when its
click recorded the keyframe `k` and the relative transform `T`, `T_WS k` being the
keyframe's world pose at that moment; a cube whose click recorded a null keyframe
keeps its pose. -/
theorem cube_pose_synced_by_loopHandler {R : Type} [Zero R] [One R] [Add R] [Mul R]
    (es : List (Event R)) (s : State R) (hrun : run es init = .ok s) :
    (∀ (f : MultiCameraFrame R) (i : Int) (c r : Bool) (t1 : State R),
      handler f i c r s = .ok t1 →
      t1.cubes = s.cubes ++
        (if c then [⟨"CubeNum" ++ toString s.cubes.length, f.T_WC3⟩] else []) ∧
      t1.errorCubes = s.errorCubes ++
        (if r then [⟨"MarkerCube" ++ toString s.errorCubes.length, f.T_WC3⟩] else [])) ∧
    (∀ (traj : List (Matrix4d R)) (idx : Int) (T_WS : Nat → Matrix4d R),
      (∃ p, find s.pathMap idx = some (some p)) →
      ∃ s1, loopHandler traj idx T_WS s = .ok s1) ∧
    (∀ (traj : List (Matrix4d R)) (idx : Int) (T_WS : Nat → Matrix4d R) (s1 : State R),
      loopHandler traj idx T_WS s = .ok s1 →
      s1.cubes.length = s.cubes.length ∧
      (clicksUpToFirstMarker es).length ≤ s1.cubes.length ∧
      (∀ (j k : Nat) (T : Matrix4d R),
        (clicksUpToFirstMarker es)[j]? = some (some k, T) →
        (s1.cubes[j]?).map Cube.pose = some ((T_WS k).mul T)) ∧
      (∀ (j : Nat) (T : Matrix4d R),
        (clicksUpToFirstMarker es)[j]? = some (none, T) →
        s1.cubes[j]? = s.cubes[j]?)) := by
  obtain ⟨iK, iT⟩ := run_init_lengths es s hrun
  refine ⟨?_, ?_, ?_⟩
  · intro f i c r t1 h
    have ha := handler_anchor f i c r s t1 h
    simp only [anchorPart, Prod.mk.injEq] at ha
    obtain ⟨p1, p2, _, _⟩ := place_anchor f c r s
    exact ⟨by rw [ha.1, p1], by rw [ha.2.1, p2]⟩
  · intro traj idx T_WS hp
    obtain ⟨p, hp⟩ := hp
    obtain ⟨cs, hloop, _, _⟩ := loopHandler_ok traj idx T_WS s p hp (by omega) (by omega)
    exact ⟨_, hloop⟩
  · intro traj idx T_WS s1 h1
    obtain ⟨p, hp⟩ := loopHandler_ok_has_path traj idx T_WS s s1 h1
    obtain ⟨cs, hloop, hlen, hget⟩ :=
      loopHandler_ok traj idx T_WS s p hp (by omega) (by omega)
    rw [hloop] at h1
    cases h1
    obtain ⟨rK, rT, gK, gT, gc⟩ := run_clicksUpToFirstMarker es init s [] hrun rfl rfl rfl
    simp only [List.nil_append] at gK gT gc
    refine ⟨hlen, by simpa [hlen] using gc, ?_, ?_⟩
    · intro j k T hj
      have hjL : j < (clicksUpToFirstMarker es).length := by
        by_contra hcon
        rw [List.getElem?_eq_none (by omega)] at hj
        cases hj
      have hjc : j < s.cubes.length := by omega
      have hKj : s.K_cubes[j]? = some (some k) := by
        rw [gK, List.getElem?_append_left (by simpa using hjL), List.getElem?_map, hj]
        rfl
      have hTj : s.T_K_cubes[j]? = some T := by
        rw [gT, List.getElem?_append_left (by simpa using hjL), List.getElem?_map, hj]
        rfl
      obtain ⟨c0, hc0⟩ : ∃ c0, s.cubes[j]? = some c0 := ⟨_, List.getElem?_eq_getElem hjc⟩
      show (cs[j]?).map Cube.pose = _
      rw [hget j, if_pos hjc]
      simp [refreshedCube, hKj, hTj, hc0, Cube.set_transform]
    · intro j T hj
      have hjL : j < (clicksUpToFirstMarker es).length := by
        by_contra hcon
        rw [List.getElem?_eq_none (by omega)] at hj
        cases hj
      have hjc : j < s.cubes.length := by omega
      have hKj : s.K_cubes[j]? = some none := by
        rw [gK, List.getElem?_append_left (by simpa using hjL), List.getElem?_map, hj]
        rfl
      show cs[j]? = _
      rw [hget j, if_pos hjc]
      simp [refreshedCube, hKj]

/-- Witness of amended C5: one frame with both a click and an `r` press on keyframe
0; its click cube belongs to `clicksUpToFirstMarker`, and loop closure completes and
shows it at `kfPose 0 * shift 0 1 0`. -/
theorem cube_pose_synced_by_loopHandler_witness :
    run [clickAndMarkerOnKeyframe0] init = .ok afterClickAndMarkerInOneFrame ∧
    clicksUpToFirstMarker [clickAndMarkerOnKeyframe0] = [(some 0, shift 0 1 0)] ∧
    (∃ s1, loopHandler [shift 1 2 3] 0 kfPose afterClickAndMarkerInOneFrame = .ok s1) ∧
    (∀ s1 : State Int,
      loopHandler [shift 1 2 3] 0 kfPose afterClickAndMarkerInOneFrame = .ok s1 →
      s1.cubes.length = afterClickAndMarkerInOneFrame.cubes.length ∧
      (clicksUpToFirstMarker [clickAndMarkerOnKeyframe0]).length ≤ s1.cubes.length ∧
      (∀ (j k : Nat) (T : Matrix4d Int),
        (clicksUpToFirstMarker [clickAndMarkerOnKeyframe0])[j]? = some (some k, T) →
        (s1.cubes[j]?).map Cube.pose = some ((kfPose k).mul T)) ∧
      (∀ (j : Nat) (T : Matrix4d Int),
        (clicksUpToFirstMarker [clickAndMarkerOnKeyframe0])[j]? = some (none, T) →
        s1.cubes[j]? = afterClickAndMarkerInOneFrame.cubes[j]?)) :=
  ⟨rfl, rfl,
    (cube_pose_synced_by_loopHandler [clickAndMarkerOnKeyframe0]
      afterClickAndMarkerInOneFrame rfl).2.1 [shift 1 2 3] 0 kfPose ⟨_, rfl⟩,
    (cube_pose_synced_by_loopHandler [clickAndMarkerOnKeyframe0]
      afterClickAndMarkerInOneFrame rfl).2.2 [shift 1 2 3] 0 kfPose⟩

end SlamReplaying
